import Mathlib

/-!
Shallow embedding of the contract-parsing pipeline of `src/parse_contract.py`
and of the two CLI entry points (`src/ingest_contract.py`, `src/ingest_folder.py`).

Conventions:
  * Python floats are modelled as `Rat`; the score tiers 1.0 / 0.85 / 0.0 are
    the rationals 1, 17/20, 0.
  * Python `None` for a field value is `Option.none`.
  * Code that can raise an uncaught Python exception is modelled in
    `Except PyErr`.
  * `re.finditer` over the large per-field pattern table is modelled as an
    oracle parameter (`fi : String → RFlag → List String`, the list of
    group-1 captures in document order for a given pattern applied to the
    document's text); all theorems about that table are universally
    quantified over the oracle.  The small fixed patterns driving document
    classification and job-offer date derivation are evaluated concretely by
    a miniature regex engine covering exactly the constructs those patterns
    use.
-/

set_option maxRecDepth 4000

namespace Moonwalk

/-- Fields extracted from a contract, the keys of the `PATTERNS` dict of the
source plus `insurance_status` which the source adds to the result directly. -/
inductive Field where
  | full_name
  | nationality
  | date_of_birth
  | passport_number
  | job_title
  | base_salary
  | total_salary
  | contract_start_date
  | contract_expiry_date
  | mohre_transaction_no
  | insurance_status
deriving DecidableEq

/-- Value stored for a field: Python `str` or `float` (floats as rationals). -/
inductive Value where
  | vstr (s : String)
  | vnum (q : Rat)
deriving DecidableEq

/-- Uncaught Python exceptions the embedded code can raise. -/
inductive PyErr where
  | valueError
  | attributeError
  | keyError (k : String)
deriving DecidableEq

/-- Equality of `Except` values is decidable when it is on both sides. -/
instance {ε α : Type} [DecidableEq ε] [DecidableEq α] : DecidableEq (Except ε α) :=
  fun a b =>
    match a, b with
    | .ok x, .ok y =>
      if h : x = y then isTrue (by rw [h])
      else isFalse (by intro hc; cases hc; exact h rfl)
    | .error x, .error y =>
      if h : x = y then isTrue (by rw [h])
      else isFalse (by intro hc; cases hc; exact h rfl)
    | .ok _, .error _ => isFalse (by intro hc; cases hc)
    | .error _, .ok _ => isFalse (by intro hc; cases hc)

/-- Document type returned by `_detect_doc_type`. -/
inductive DocType where
  | employment_contract
  | job_offer
  | unknown
deriving DecidableEq

/-! ## Character and string helpers (kernel-friendly: lists of chars) -/

/-- Whitespace test used for Python `str.strip()` and the regex class `\s`. -/
def pySpace (c : Char) : Bool := c.isWhitespace

/-- Python `str.strip()` on a list of characters: drop whitespace at both ends. -/
def pyStrip (s : List Char) : List Char :=
  ((s.dropWhile pySpace).reverse.dropWhile pySpace).reverse

/-- Python `str.strip()` on a `String`. -/
def pyStripStr (s : String) : String := ⟨pyStrip s.data⟩

/-- Python `str.lower()` (ASCII, which is all the patterns need). -/
def pyLower (s : String) : String := ⟨s.data.map Char.toLower⟩

/-- Value of a list of decimal digit characters. -/
def decVal (ds : List Char) : Nat :=
  ds.foldl (fun n c => n * 10 + (c.toNat - 48)) 0

/-- Whether a nonempty list is all decimal digits (Python `str.isdigit` on the
ASCII digits the patterns capture). -/
def allDigits (ds : List Char) : Bool :=
  !ds.isEmpty && ds.all Char.isDigit

/-- Split a list of characters at every occurrence of `sep` (like Python
`str.split(sep)` for a single-character separator). -/
def splitOnChar (sep : Char) (s : List Char) : List (List Char) :=
  match s with
  | [] => [[]]
  | c :: rest =>
    let r := splitOnChar sep rest
    if c = sep then [] :: r
    else
      match r with
      | [] => [[c]]
      | g :: gs => (c :: g) :: gs

/-- Decimal digits of `n`, most significant first. -/
def natDigits (n : Nat) : List Char := Nat.toDigits 10 n

/-- Left-pad a digit list with zeros to width `w` (strftime zero padding). -/
def padZeros (w : Nat) (ds : List Char) : List Char :=
  List.replicate (w - ds.length) '0' ++ ds

/-! ## Gregorian date validity (what `datetime` accepts) -/

/-- Leap year test of the Gregorian calendar. -/
def isLeap (y : Nat) : Bool := y % 4 = 0 && (y % 100 ≠ 0 || y % 400 = 0)

/-- Number of days of month `m` of year `y`. -/
def daysInMonth (y m : Nat) : Nat :=
  if m = 2 then (if isLeap y then 29 else 28)
  else if m = 4 ∨ m = 6 ∨ m = 9 ∨ m = 11 then 30
  else 31

/-- Validity of a (day, month, year) triple as a `datetime.date`
(`MINYEAR = 1`, `MAXYEAR = 9999`). -/
def validDate (d m y : Nat) : Bool :=
  1 ≤ y && y ≤ 9999 && 1 ≤ m && m ≤ 12 && 1 ≤ d && d ≤ daysInMonth y m

/-- Parse of a 1-or-2-digit day or month component (the `%d` / `%m`
directives of `strptime` accept one or two digits). -/
def parse12 (s : List Char) : Option Nat :=
  if (s.length = 1 ∨ s.length = 2) && allDigits s then some (decVal s) else none

/-- Parse of the exactly-4-digit year component of `strptime`'s `%Y`. -/
def parse4 (s : List Char) : Option Nat :=
  if s.length = 4 && allDigits s then some (decVal s) else none

/-- Model of `datetime.strptime(value, "%d/%m/%Y")`: day, month and four-digit
year separated by slashes, the whole string consumed, and the triple a valid
calendar date; `none` models the `ValueError` raised otherwise. -/
def parseDMY (s : String) : Option (Nat × Nat × Nat) :=
  match splitOnChar '/' s.data with
  | [ds, ms, ys] =>
    match parse12 ds, parse12 ms, parse4 ys with
    | some d, some m, some y => if validDate d m y then some (d, m, y) else none
    | _, _, _ => none
  | _ => none

/-- Model of `datetime.strptime(value, "%Y-%m-%d")` (used to re-read the ISO
string produced by `_to_iso`). -/
def parseISO (s : String) : Option (Nat × Nat × Nat) :=
  match splitOnChar '-' s.data with
  | [ys, ms, ds] =>
    match parse4 ys, parse12 ms, parse12 ds with
    | some y, some m, some d => if validDate d m y then some (d, m, y) else none
    | _, _, _ => none
  | _ => none

/-- Model of `strftime("%Y-%m-%d")`: zero-padded 4-2-2 rendering. -/
def isoOf (d m y : Nat) : String :=
  ⟨padZeros 4 (natDigits y) ++ '-' :: padZeros 2 (natDigits m) ++ '-' :: padZeros 2 (natDigits d)⟩

/-- Model of the source's `_to_iso`: `strptime(value, "%d/%m/%Y")` followed by
`strftime("%Y-%m-%d")`; `none` models the `ValueError` on parse failure. -/
def to_iso (s : String) : Option String :=
  (parseDMY s).map fun t => isoOf t.1 t.2.1 t.2.2

/-! ## Python `float(str)` (the decimal forms the pipeline can meet) -/

/-- Model of `float(raw)` on a string: optional surrounding whitespace and
sign, then decimal digits with at most one decimal point (`"12"`, `"12.5"`,
`"12."`, `".5"`).  Exotic float syntax (exponents, `inf`, `nan`, underscore
separators) is outside what the patterns capture and is not modelled; `none`
models the `ValueError`. -/
def parsePyFloat (s : String) : Option Rat :=
  let t := pyStrip s.data
  let (sign, t) :=
    match t with
    | '-' :: r => ((-1 : Rat), r)
    | '+' :: r => ((1 : Rat), r)
    | r => ((1 : Rat), r)
  match splitOnChar '.' t with
  | [ip] =>
    if allDigits ip then some (sign * (decVal ip : Rat)) else none
  | [ip, fp] =>
    if allDigits ip && fp.isEmpty then some (sign * (decVal ip : Rat))
    else if ip.isEmpty && allDigits fp then
      some (sign * ((decVal fp : Rat) / ((10 : Rat) ^ fp.length)))
    else if allDigits ip && allDigits fp then
      some (sign * ((decVal ip : Rat) + (decVal fp : Rat) / ((10 : Rat) ^ fp.length)))
    else none
  | _ => none

/-! ## Miniature regex engine

Covers exactly the constructs of the fixed patterns evaluated concretely:
`_JO_SIGNING_DATE_PATTERNS`, `_JO_DURATION_PATTERNS` and the two literal
markers of `_detect_doc_type`.  All of those are compiled with
`re.IGNORECASE`, so literal characters compare case-insensitively.  Each
pattern has at most one capture group.  Quantifiers in these patterns apply
only to single-character classes, so greedy backtracking enumerates how many
class characters a quantifier consumes, longest first (Python's greedy
priority order). -/

/-- One regex construct. `strs` is an alternation of literal words
(`one|two|three|four|five`), tried in order like Python's `|`. -/
inductive RE where
  | lit (c : Char)
  | cls (p : Char → Bool)
  | star (p : Char → Bool)
  | plus (p : Char → Bool)
  | opt (p : Char → Bool)
  | rep (n : Nat) (p : Char → Bool)
  | strs (ws : List (List Char))
  | grp (rs : List RE)

/-- Case-insensitive character comparison (all modelled patterns carry
`re.IGNORECASE`). -/
def charIEq (pat txt : Char) : Bool := txt.toLower = pat.toLower

/-- Length of the longest prefix of `s` whose characters satisfy `p`. -/
def takeCount (p : Char → Bool) : List Char → Nat
  | [] => 0
  | c :: cs => if p c then takeCount p cs + 1 else 0

/-- Whether `w` is a case-insensitive prefix of `s`. -/
def iPrefix : List Char → List Char → Bool
  | [], _ => true
  | _ :: _, [] => false
  | c :: w, d :: s => charIEq c d && iPrefix w s

mutual

/-- All ways one construct can match a prefix of `s`, in backtracking
priority order: `(capture of the group if one was traversed, rest of s)`. -/
def waysRE : RE → List Char → List (Option (List Char) × List Char)
  | .lit c, s =>
    match s with
    | [] => []
    | d :: rest => if charIEq c d then [(none, rest)] else []
  | .cls p, s =>
    match s with
    | [] => []
    | d :: rest => if p d then [(none, rest)] else []
  | .star p, s =>
    ((List.range (takeCount p s + 1)).reverse).map fun i => (none, s.drop i)
  | .plus p, s =>
    ((List.range (takeCount p s)).reverse).map fun i => (none, s.drop (i + 1))
  | .opt p, s =>
    match s with
    | [] => [(none, s)]
    | d :: rest => if p d then [(none, rest), (none, s)] else [(none, s)]
  | .rep n p, s =>
    if (s.take n).length = n && (s.take n).all p then [(none, s.drop n)] else []
  | .strs ws, s =>
    ws.filterMap fun w => if iPrefix w s then some (none, s.drop w.length) else none
  | .grp rs, s =>
    (waysSeq rs s).map fun pr => (some (s.take (s.length - pr.2.length)), pr.2)

/-- All ways a sequence of constructs can match a prefix of `s`, in
backtracking priority order. -/
def waysSeq : List RE → List Char → List (Option (List Char) × List Char)
  | [], s => [(none, s)]
  | r :: rs, s =>
    (waysRE r s).flatMap fun pr =>
      (waysSeq rs pr.2).map fun qr => (pr.1 <|> qr.1, qr.2)

end

/-- Model of `re.search(pattern, text)` with `m.group(1)` extracted: try each
start position left to right; at the first matching position take the
highest-priority match.  Returns `none` when the pattern matches nowhere, and
`some cap` where `cap` is group 1's text (`none` when the pattern has no
group). -/
def reSearchAux (rs : List RE) : List Char → Option (Option (List Char))
  | [] =>
    match waysSeq rs [] with
    | pr :: _ => some pr.1
    | [] => none
  | c :: rest =>
    match waysSeq rs (c :: rest) with
    | pr :: _ => some pr.1
    | [] => reSearchAux rs rest

/-- Whether `re.search(pattern, text)` finds a match. -/
def reFound (rs : List RE) (text : String) : Bool :=
  (reSearchAux rs text.data).isSome

/-- Group 1 of the first match of `pattern` in `text`, as a string. -/
def reGroup1 (rs : List RE) (text : String) : Option String :=
  match reSearchAux rs text.data with
  | some (some cap) => some ⟨cap⟩
  | _ => none

/-- Sequence of literal characters (case-insensitive). -/
def litSeq (w : String) : List RE := w.data.map RE.lit

/-- The class `\d`. -/
def reDigit : RE := .cls Char.isDigit

/-- The group `(\d{2}/\d{2}/\d{4})`. -/
def ddmmyyyyGroup : RE :=
  .grp [.rep 2 Char.isDigit, .lit '/', .rep 2 Char.isDigit, .lit '/', .rep 4 Char.isDigit]

/-- Pattern `Corresponding\s*to\s*[=:]?\s*(\d{2}/\d{2}/\d{4})` of
`_JO_SIGNING_DATE_PATTERNS` (IGNORECASE). -/
def JO_SIGNING_1 : List RE :=
  litSeq "Corresponding" ++ [.star pySpace] ++ litSeq "to" ++
    [.star pySpace, .opt (fun c => c = '=' ∨ c = ':'), .star pySpace, ddmmyyyyGroup]

/-- The signing-date pattern list of the source (one entry). -/
def JO_SIGNING_DATE_PATTERNS : List (List RE) := [JO_SIGNING_1]

/-- Pattern `for\s+a\s+period\s+of\s+(\d+)\s+[Yy]ear` of
`_JO_DURATION_PATTERNS` (IGNORECASE). -/
def JO_DURATION_1 : List RE :=
  litSeq "for" ++ [.plus pySpace] ++ litSeq "a" ++ [.plus pySpace] ++
    litSeq "period" ++ [.plus pySpace] ++ litSeq "of" ++ [.plus pySpace] ++
    [.grp [.plus Char.isDigit], .plus pySpace,
     .cls (fun c => c = 'Y' ∨ c = 'y')] ++ litSeq "ear"

/-- Pattern `for\s+a\s+period\s+of\s+(one|two|three|four|five)\s+[Yy]ear` of
`_JO_DURATION_PATTERNS` (IGNORECASE). -/
def JO_DURATION_2 : List RE :=
  litSeq "for" ++ [.plus pySpace] ++ litSeq "a" ++ [.plus pySpace] ++
    litSeq "period" ++ [.plus pySpace] ++ litSeq "of" ++ [.plus pySpace] ++
    [.grp [.strs ["one".data, "two".data, "three".data, "four".data, "five".data]],
     .plus pySpace, .cls (fun c => c = 'Y' ∨ c = 'y')] ++ litSeq "ear"

/-- The duration pattern list of the source, in order. -/
def JO_DURATION_PATTERNS : List (List RE) := [JO_DURATION_1, JO_DURATION_2]

/-- The `_YEAR_WORDS` dict of the source. -/
def YEAR_WORDS : List (String × Nat) :=
  [("one", 1), ("two", 2), ("three", 3), ("four", 4), ("five", 5)]

/-- Model of `_detect_doc_type`: `re.search(r"EMPLOYMENT CONTRACT", text, I)`
then `re.search(r"JOB OFFER", text, I)`, first match wins, else `unknown`. -/
def detect_doc_type (text : String) : DocType :=
  if reFound (litSeq "EMPLOYMENT CONTRACT") text then .employment_contract
  else if reFound (litSeq "JOB OFFER") text then .job_offer
  else .unknown

/-! ## Job-offer derived dates (`_extract_job_offer_dates`) -/

/-- First signing date: for each pattern of `_JO_SIGNING_DATE_PATTERNS`, if it
matches, try `_to_iso` on group 1 and stop; on a `ValueError` continue with
the next pattern. -/
def jo_signing_iso (text : String) : Option String :=
  JO_SIGNING_DATE_PATTERNS.findSome? fun p => (reGroup1 p text).bind to_iso

/-- Duration in years: for each pattern of `_JO_DURATION_PATTERNS`, if it
matches, lower-case group 1, look it up in `_YEAR_WORDS`, else parse it as an
integer if it is all digits; `if years: break` continues past a falsy result
(absent or zero). -/
def jo_years (text : String) : Option Nat :=
  JO_DURATION_PATTERNS.findSome? fun p =>
    match reGroup1 p text with
    | none => none
    | some cap =>
      let raw := pyLower cap
      let years : Option Nat :=
        match YEAR_WORDS.lookup raw with
        | some n => some n
        | none => if allDigits raw.data then some (decVal raw.data) else none
      match years with
      | some n => if n = 0 then none else some n
      | none => none

/-- Model of `start_dt.replace(year=start_dt.year + years)` with the
`ValueError` fallback `replace(year=..., day=28)` (Feb 29 landing on a
non-leap year), rendered by `strftime("%Y-%m-%d")`.  Assumes the target year
is in `datetime`'s range (checked by the caller). -/
def jo_expiry (d m y yrs : Nat) : String :=
  if d ≤ daysInMonth (y + yrs) m then isoOf d m (y + yrs) else isoOf 28 m (y + yrs)

/-- Model of `_extract_job_offer_dates`: derive `(start_iso, expiry_iso)`.
`datetime.replace` with a target year above `MAXYEAR = 9999` raises a
`ValueError` that the `except` branch re-raises, which propagates to the
caller — hence the `Except`.  The `parseISO` failure case is unreachable
because `jo_signing_iso` always emits `strftime` output; Python's
`strptime` there would likewise raise on anything else. -/
def extract_job_offer_dates (text : String) :
    Except PyErr (Option String × Option String) :=
  match jo_signing_iso text with
  | none => .ok (none, none)
  | some iso =>
    match jo_years text with
    | none => .ok (some iso, none)
    | some yrs =>
      match parseISO iso with
      | none => .error .valueError
      | some (d, m, y) =>
        if y + yrs ≤ 9999 then .ok (some iso, some (jo_expiry d m y yrs))
        else .error .valueError

/-! ## The `PATTERNS` table and the field matcher (`_match_field`)

The regex strings below are the source's rules verbatim (one backslash of the
Python raw strings is written `\\` here).  They are interpreted by the
oracle `Finditer` (the model of `re.finditer(pattern, text)` restricted to
the document's text): for a pattern and its flag it returns the list of
group-1 captures of the successive matches, in document order. -/

/-- Regex compile flags used by the source: `_S = re.IGNORECASE` and
`_SD = re.IGNORECASE | re.DOTALL`. -/
inductive RFlag where
  | s
  | sd
deriving DecidableEq

/-- The `PATTERNS` dict: each pattern field maps to its ordered rule list.
`insurance_status` has no entry in the source dict (the matching loop never
visits it); it is mapped to the empty rule list here so the function is
total. -/
def PATTERNS : Field → List (String × RFlag)
  | .full_name =>
    [("2\\.?\\s*Name\\s+([A-Z][A-Z ]+)", .s)]
  | .nationality =>
    [("2\\.?\\s*Name\\s+[A-Z][A-Z ]+\\s+Nationality\\s+([A-Z]+)", .s),
     ("Nationality\\s+([A-Z]+)\\s+of\\s+\\d{2}/\\d{2}/\\d{4}", .s),
     ("First Party.+?Nationality\\s*([A-Z]+)", .sd)]
  | .date_of_birth =>
    [("Date\\s+of\\s+Birth\\s+(\\d{2}/\\d{2}/\\d{4})", .s),
     ("\\bDate\\b\\s+(\\d{2}/\\d{2}/\\d{4})", .s),
     ("Nationality\\s+[A-Z]+\\s+of\\s+(\\d{2}/\\d{2}/\\d{4})", .s),
     ("(?:Date|Daret)[^\\d]+\\d{2}/\\d{2}/\\d{4}[^\\d]+(\\d{2}/\\d{2}/\\d{4})", .s),
     ("(?:Date|Daret|Birth|Birt)[^\\d]+(\\d{2}/\\d{2}/\\d{4})", .s)]
  | .passport_number =>
    [("Passport\\s*Number\\s+([A-Z][0-9A-Z]{5,})", .s),
     ("([A-Z][0-9A-Z]{5,})\\s+Telephone", .s)]
  | .job_title =>
    [("profession of\\s+(.+?)\\s*in the UAE", .sd)]
  | .base_salary =>
    [("Basic Salary:\\s*(\\d+(?:\\.\\d+)?)\\s*AED", .s)]
  | .total_salary =>
    [("Total Salary:\\s*(\\d+(?:\\.\\d+)?)\\s*AED", .s)]
  | .contract_start_date =>
    [("starting from\\s+(\\d{2}/\\d{2}/\\d{4})", .s),
     ("commenc(?:ing|es?)\\s+(?:on|from)\\s+(\\d{2}/\\d{2}/\\d{4})", .s),
     ("effective\\s+(?:from|on|date)\\s+(\\d{2}/\\d{2}/\\d{4})", .s),
     ("from\\s+(\\d{2}/\\d{2}/\\d{4})\\s+(?:to|until|and\\s+ending)", .s),
     ("Start\\s*Date[\\s:]+(\\d{2}/\\d{2}/\\d{4})", .s),
     ("term\\b.{0,80}?\\bfrom\\s+(\\d{2}/\\d{2}/\\d{4})", .sd)]
  | .contract_expiry_date =>
    [("ending on[^\\d]*(\\d{2}/\\d{2}/\\d{4})", .s),
     ("expir(?:ing|es?|y\\s*date)\\s*(?:on|at|from|:)?\\s*(\\d{2}/\\d{2}/\\d{4})", .s),
     ("(?:until|up\\s+to|through|till)\\s+(\\d{2}/\\d{2}/\\d{4})", .s),
     ("from\\s+\\d{2}/\\d{2}/\\d{4}\\s+(?:to|until|and\\s+ending\\s+on)\\s+(\\d{2}/\\d{2}/\\d{4})", .s),
     ("End(?:ing)?\\s*Date[\\s:]+(\\d{2}/\\d{2}/\\d{4})", .s),
     ("valid\\s+(?:until|till)\\s+(\\d{2}/\\d{2}/\\d{4})", .s),
     ("term\\b.{0,80}?\\bending\\s+(?:on\\s+)?(\\d{2}/\\d{2}/\\d{4})", .sd)]
  | .mohre_transaction_no =>
    [("Transaction Number\\s+([A-Z0-9]+)", .s),
     ("Transaction Number[^\\n]*\\n([A-Z0-9]+)", .s)]
  | .insurance_status => []

/-- The `DATE_FIELDS` set of the source. -/
def DATE_FIELDS : List Field :=
  [.date_of_birth, .contract_start_date, .contract_expiry_date]

/-- The `DECIMAL_FIELDS` set of the source. -/
def DECIMAL_FIELDS : List Field := [.base_salary, .total_salary]

/-- The keys of the `PATTERNS` dict in declaration order: the fields the
`for field in PATTERNS` loops of `parse_contract` iterate over. -/
def PATTERN_FIELDS : List Field :=
  [.full_name, .nationality, .date_of_birth, .passport_number, .job_title,
   .base_salary, .total_salary, .contract_start_date, .contract_expiry_date,
   .mohre_transaction_no]

/-- Key order of the result's `fields` / `field_scores` dicts: the pattern
fields, then `insurance_status` (inserted last by `parse_contract`). -/
def ALL_RESULT_FIELDS : List Field := PATTERN_FIELDS ++ [.insurance_status]

/-- Typing of one captured occurrence inside `_match_field`:
`raw = m.group(1).strip()`, then date fields go through `_to_iso`, decimal
fields through `float`, all other fields return the raw string; `none` is
the `ValueError` that makes the loop continue. -/
def type_capture (f : Field) (raw : String) : Option Value :=
  let r := pyStripStr raw
  if f ∈ DATE_FIELDS then (to_iso r).map .vstr
  else if f ∈ DECIMAL_FIELDS then (parsePyFloat r).map .vnum
  else some (.vstr r)

/-- Inner loop of `_match_field` over one rule's occurrences: first capture
that types successfully; a typing failure falls through to the next
occurrence. -/
def first_typed (f : Field) : List String → Option Value
  | [] => none
  | raw :: rest =>
    match type_capture f raw with
    | some v => some v
    | none => first_typed f rest

/-- Outer loop of `_match_field` over the rule list: first rule (in
declaration order) whose occurrences yield a typed value. -/
def match_rules (f : Field) : List (List String) → Option Value
  | [] => none
  | occs :: rest =>
    match first_typed f occs with
    | some v => some v
    | none => match_rules f rest

/-- Oracle for `re.finditer(pattern, text)` on the document's text: group-1
captures of the successive matches, in document order. -/
def Finditer : Type := String → RFlag → List String

/-- Occurrence lists the matcher walks: one list per rule of the field. -/
def rule_captures (fi : Finditer) (f : Field) : List (List String) :=
  (PATTERNS f).map fun pr => fi pr.1 pr.2

/-- Model of `_match_field`: `(value, confidence)` — the first
successfully-typed capture wins with score 1.0; if every rule and occurrence
fails, `(None, 0.0)`. -/
def match_field (fi : Finditer) (f : Field) : Option Value × Rat :=
  match match_rules f (rule_captures fi f) with
  | some v => (some v, 1)
  | none => (none, 0)

/-! ## External-model fallback (`_llm_extract_fields`) -/

/-- A JSON value as `json.loads` can produce it (Python object view). -/
inductive JVal where
  | jnull
  | jbool (b : Bool)
  | jnum (q : Rat)
  | jstr (s : String)
  | jarr (xs : List JVal)
  | jobj (kvs : List (String × JVal))

/-- Model of Python `str(val)` on a JSON-derived value.  Strings pass
through; `None`/booleans use their Python spelling; an integral float prints
as `"n.0"`.  The exact text of container and non-integral-float reprs is
never relied on by any theorem — only that it is not a parseable date, which
holds of the placeholders as of the reprs. -/
def py_str : JVal → String
  | .jnull => "None"
  | .jbool b => if b then "True" else "False"
  | .jnum q => if q.den = 1 then ⟨natDigits q.num.toNat ++ ['.', '0']⟩ else "<float>"
  | .jstr s => s
  | .jarr _ => "<list>"
  | .jobj _ => "<dict>"

/-- Model of Python `float(val)` on a JSON-derived value: numbers pass
through, booleans coerce, strings parse (`ValueError` on failure), `None`
and containers raise `TypeError`; `none` covers both caught exceptions. -/
def jval_float : JVal → Option Rat
  | .jnum q => some q
  | .jbool b => some (if b then 1 else 0)
  | .jstr s => parsePyFloat s
  | _ => none

/-- Association lookup among JSON object members. -/
def jlookup : List (String × JVal) → String → Option JVal
  | [], _ => none
  | (k, v) :: rest, key => if k = key then some v else jlookup rest key

/-- Model of `raw.get(field)`: on a dict, the member or `None` when absent
(a JSON `null` member is also Python `None`); on any non-dict value an
uncaught `AttributeError` — `raw.get` sits outside the `try` block. -/
def py_get (raw : JVal) (key : String) : Except PyErr JVal :=
  match raw with
  | .jobj kvs => .ok ((jlookup kvs key).getD .jnull)
  | _ => .error .attributeError

/-- JSON key of a field (the Python field-name strings). -/
def field_key : Field → String
  | .full_name => "full_name"
  | .nationality => "nationality"
  | .date_of_birth => "date_of_birth"
  | .passport_number => "passport_number"
  | .job_title => "job_title"
  | .base_salary => "base_salary"
  | .total_salary => "total_salary"
  | .contract_start_date => "contract_start_date"
  | .contract_expiry_date => "contract_expiry_date"
  | .mohre_transaction_no => "mohre_transaction_no"
  | .insurance_status => "insurance_status"

/-- The keys of `_LLM_FIELD_DEFS` (the field semantics sent in the prompt;
the description texts do not influence control flow). -/
def LLM_FIELD_KEYS : List Field :=
  [.full_name, .nationality, .date_of_birth, .passport_number, .job_title,
   .base_salary, .total_salary, .contract_start_date, .contract_expiry_date,
   .mohre_transaction_no]

/-- Re-typing of one returned value inside `_llm_extract_fields`: `None`
resolves to `(None, 0.0)`; date fields re-parse through `_to_iso(str(val))`
(`ValueError` caught → `(None, 0.0)`); decimal fields through `float(val)`
(`ValueError`/`TypeError` caught → `(None, 0.0)`); anything else becomes
`(str(val).strip(), 0.85)`. -/
def llm_retype_val (f : Field) (val : JVal) : Option Value × Rat :=
  if f ∈ DATE_FIELDS then
    match to_iso (py_str val) with
    | some iso => (some (.vstr iso), (85 / 100 : Rat))
    | none => (none, 0)
  else if f ∈ DECIMAL_FIELDS then
    match jval_float val with
    | some q => (some (.vnum q), (85 / 100 : Rat))
    | none => (none, 0)
  else (some (.vstr (pyStripStr (py_str val))), (85 / 100 : Rat))

/-- Re-typing of one returned value: dispatch on `val is None` first, then
the per-type branches of `llm_retype_val`. -/
def llm_retype (f : Field) (val : JVal) : Option Value × Rat :=
  match val with
  | .jnull => (none, 0)
  | _ => llm_retype_val f val

/-- The `for field in missing_fields` loop over the parsed response: each
field reads `raw.get(field)` (which raises on a non-dict `raw`) and stores
its re-typed pair, in iteration order. -/
def llm_results (raw : JVal) : List Field → Except PyErr (List (Field × (Option Value × Rat)))
  | [] => .ok []
  | f :: rest =>
    match py_get raw (field_key f) with
    | .error e => .error e
    | .ok val =>
      match llm_results raw rest with
      | .error e => .error e
      | .ok out => .ok ((f, llm_retype f val) :: out)

/-- Environment of the external call: whether the `openai` import succeeded,
the configured `OPENAI_API_KEY` (disabled when empty, its default), and the
outcome of the guarded request block — `none` when anything inside the `try`
raised (network failure, API error, a response that is not valid JSON),
`some raw` when `json.loads` produced `raw`. -/
structure LlmEnv where
  available : Bool
  apiKey : String
  apiResult : Option JVal

/-- Model of `_llm_extract_fields(text, missing_fields)`.  Returns `{}` when
OpenAI is unavailable, no key is configured, no field is requested, no
requested field has a prompt definition, or the guarded request block
raised; otherwise walks the parsed response.  The `text` argument only feeds
the prompt (truncated to 4000 characters in the source) and does not affect
the result, which is fixed by `env.apiResult`. -/
def llm_extract_fields (env : LlmEnv) (_text : String) (missing : List Field) :
    Except PyErr (List (Field × (Option Value × Rat))) :=
  if env.available = false ∨ env.apiKey = "" ∨ missing = [] then .ok []
  else if missing.filter (fun f => decide (f ∈ LLM_FIELD_KEYS)) = [] then .ok []
  else
    match env.apiResult with
    | none => .ok []
    | some raw => llm_results raw missing

/-! ## The orchestrator (`parse_contract`) -/

/-- Inputs of one `parse_contract` run, after text acquisition: the
document's text, the finditer oracle for the `PATTERNS` table on that text,
the external-call environment, and the `ocr_used` flag `_get_text` returned. -/
structure Doc where
  text : String
  fi : Finditer
  llm : LlmEnv
  ocrUsed : Bool

/-- The result record of `parse_contract`. -/
structure ParseResult where
  fields : Field → Option Value
  field_scores : Field → Rat
  confidence : Rat
  ocr_used : Bool
  doc_type : DocType

/-- Python `min` over a list known nonempty by the caller (`required` always
has the ten pattern fields); the `[]` case is junk, never reached. -/
def py_min : List Rat → Rat
  | [] => 0
  | x :: xs => xs.foldl min x

/-- The `missing` list of `parse_contract`: pattern fields still scored 0.0,
in table order. -/
def missing_fields (sc : Field → Rat) : List Field :=
  PATTERN_FIELDS.filter fun f => decide (sc f = 0)

/-- One guarded overwrite of the job-offer block:
`if value and scores[field] == 0.0: fields[field] = value; scores[field] = 0.85`. -/
def jo_set (f0 : Field) (v : String)
    (st : (Field → Option Value) × (Field → Rat)) :
    (Field → Option Value) × (Field → Rat) :=
  if st.2 f0 = 0 then
    (Function.update st.1 f0 (some (.vstr v)), Function.update st.2 f0 (85 / 100 : Rat))
  else st

/-- The guarded overwrite applied to an optional derived value (`if jo_start
and …`): a `None` derived value changes nothing. -/
def jo_opt (f0 : Field) (v : Option String)
    (st : (Field → Option Value) × (Field → Rat)) :
    (Field → Option Value) × (Field → Rat) :=
  match v with
  | some s => jo_set f0 s st
  | none => st

/-- The job-offer block of `parse_contract`: when the document type is
`job_offer`, derive the dates and overwrite `contract_start_date` /
`contract_expiry_date` only while still scored 0.0 (the start overwrite runs
first, exactly as in the source, though it cannot affect the expiry guard). -/
def jo_update (text : String) (fs : Field → Option Value) (sc : Field → Rat) :
    Except PyErr ((Field → Option Value) × (Field → Rat)) :=
  if detect_doc_type text = .job_offer then
    match extract_job_offer_dates text with
    | .error e => .error e
    | .ok (joS, joE) =>
      .ok (jo_opt .contract_expiry_date joE (jo_opt .contract_start_date joS (fs, sc)))
  else .ok (fs, sc)

/-- Stages 1–2 of `parse_contract`: the `_match_field` loop over the pattern
table, then the job-offer derived-date block. -/
def stage12 (doc : Doc) : Except PyErr ((Field → Option Value) × (Field → Rat)) :=
  jo_update doc.text (fun f => (match_field doc.fi f).1) (fun f => (match_field doc.fi f).2)

/-- Tail of `parse_contract` after the LLM call: merge the LLM pairs into the
dicts in iteration order, pin `insurance_status` to `(None, 1.0)`, and take
`confidence = min(scores[k] for k in scores if k != "insurance_status")`. -/
def merge_results (base : (Field → Option Value) × (Field → Rat))
    (l : List (Field × (Option Value × Rat))) :
    (Field → Option Value) × (Field → Rat) :=
  l.foldl (fun p fr => (Function.update p.1 fr.1 fr.2.1, Function.update p.2 fr.1 fr.2.2)) base

/-- Tail of `parse_contract` after the LLM call (see the comment above
`merge_results`). -/
def finalize (doc : Doc) (fs : Field → Option Value) (sc : Field → Rat)
    (llmRes : List (Field × (Option Value × Rat))) : ParseResult :=
  { fields := Function.update (merge_results (fs, sc) llmRes).1 .insurance_status none
    field_scores := Function.update (merge_results (fs, sc) llmRes).2 .insurance_status 1
    confidence := py_min ((ALL_RESULT_FIELDS.filter (· ≠ Field.insurance_status)).map
      (Function.update (merge_results (fs, sc) llmRes).2 .insurance_status 1))
    ocr_used := doc.ocrUsed
    doc_type := detect_doc_type doc.text }

/-- Model of `parse_contract` from the point where text acquisition is done:
match every pattern field, detect the document type, apply the job-offer
derived dates, batch the still-0.0 fields into the external fallback (only
when some field is missing), merge, and build the result record.  An
uncaught Python exception anywhere propagates as `.error`. -/
def parse_contract (doc : Doc) : Except PyErr ParseResult :=
  match stage12 doc with
  | .error e => .error e
  | .ok (fs2, sc2) =>
    let missing := missing_fields sc2
    match (if missing = [] then .ok [] else llm_extract_fields doc.llm doc.text missing) with
    | .error e => .error e
    | .ok llmRes => .ok (finalize doc fs2 sc2 llmRes)

/-! ## Text acquisition (`_get_text`) -/

/-- The raster-image suffixes OCR'd directly. -/
def IMAGE_SUFFIXES : List String := [".jpg", ".jpeg", ".png", ".tiff", ".tif", ".bmp"]

/-- The `_MIN_TEXT_CHARS` threshold below which a page counts as scanned. -/
def MIN_TEXT_CHARS : Nat := 100

/-- Environment of one `_get_text` run: the file's (lower-cased) suffix, the
availability flags of the optional engines, and the text each engine would
deliver.  `legacyImages = none` models `convert_from_path` raising. -/
structure AcqEnv where
  suffix : String
  legacyAvailable : Bool
  imageOcrText : String
  pymupdfAvailable : Bool
  fitzPages : List String
  plumberPages : List String
  fitzOcr : Nat → String
  legacyImages : Option (List String)

/-- One iteration of the per-page loop of the PyMuPDF branch:
`(text appended to result_pages, whether this page set ocr_used)`.  In
order: keep the fitz text when long enough, else the pdfplumber text when
long enough, else the fitz-OCR text when nonempty (setting the flag), else
the legacy-OCR text when available, conversion succeeded and the page index
is in range (setting the flag), else the empty string. -/
def page_result (env : AcqEnv) (i : Nat) : String × Bool :=
  if MIN_TEXT_CHARS ≤ (pyStrip (env.fitzPages.getD i "").data).length then
    (env.fitzPages.getD i "", false)
  else if MIN_TEXT_CHARS ≤ (pyStrip (env.plumberPages.getD i "").data).length then
    (env.plumberPages.getD i "", false)
  else if pyStrip (env.fitzOcr i).data ≠ [] then (env.fitzOcr i, true)
  else if env.legacyAvailable then
    match env.legacyImages with
    | some imgs => if i < imgs.length then (imgs.getD i "", true) else ("", false)
    | none => ("", false)
  else ("", false)

/-- One merged page of the no-PyMuPDF branch: replace a short pdfplumber
page by its legacy-OCR text when the rendered image exists. -/
def merged_page (env : AcqEnv) (imgs : List String) (i : Nat) : String × Bool :=
  if (pyStrip (env.plumberPages.getD i "").data).length < MIN_TEXT_CHARS ∧
      i < imgs.length then
    (imgs.getD i "", true)
  else (env.plumberPages.getD i "", false)

/-- Model of `_get_text`.  The source's loop enumerates the pages, appends
one page text per iteration and ORs `ocr_used`; here that is the `map` of
`page_result` over the page indices plus `any` of the flags.  Image suffixes
OCR directly; without PyMuPDF the pdfplumber text is merged with legacy OCR
for short pages. -/
def get_text (env : AcqEnv) : String × Bool :=
  if env.suffix ∈ IMAGE_SUFFIXES then
    if env.legacyAvailable then (env.imageOcrText, true) else ("", false)
  else if env.pymupdfAvailable then
    (String.intercalate "\n"
      (((List.range env.fitzPages.length).map fun i => page_result env i).map Prod.fst),
     ((List.range env.fitzPages.length).map fun i => page_result env i).any Prod.snd)
  else if env.legacyAvailable then
    match env.legacyImages with
    | some imgs =>
      (String.intercalate "\n"
        (((List.range env.plumberPages.length).map fun i => merged_page env imgs i).map Prod.fst),
       ((List.range env.plumberPages.length).map fun i => merged_page env imgs i).any Prod.snd)
    | none => (String.intercalate "\n" env.plumberPages, false)
  else (String.intercalate "\n" env.plumberPages, false)

/-- Whether page `i` reaches the OCR stage: both structured-text extractors
delivered fewer than `_MIN_TEXT_CHARS` stripped characters for it. -/
def reaches_ocr (env : AcqEnv) (i : Nat) : Prop :=
  (pyStrip (env.fitzPages.getD i "").data).length < MIN_TEXT_CHARS ∧
    (pyStrip (env.plumberPages.getD i "").data).length < MIN_TEXT_CHARS

/-- Whether the OCR stage produces output for page `i`: the in-process
fitz-OCR text is nonempty after stripping, or else legacy OCR is available,
page rendering succeeded and the page index is within the rendered images. -/
def ocr_delivers (env : AcqEnv) (i : Nat) : Prop :=
  (pyStrip (env.fitzOcr i).data) ≠ [] ∨
    ((pyStrip (env.fitzOcr i).data) = [] ∧ env.legacyAvailable = true ∧
      ∃ imgs, env.legacyImages = some imgs ∧ i < imgs.length)

/-! ## CLI entry points (`ingest_contract.main`, `ingest_folder`'s loop) -/

/-- A value of the result dict, as the dynamically-typed callers see it. -/
inductive PyVal where
  | vfields (m : Field → Option Value)
  | vscores (m : Field → Rat)
  | vrat (q : Rat)
  | vbool (b : Bool)
  | vstr (s : String)

/-- String form of the document type in the result dict. -/
def doc_type_key : DocType → String
  | .employment_contract => "employment_contract"
  | .job_offer => "job_offer"
  | .unknown => "unknown"

/-- The dict literal `parse_contract` returns (its five keys, in order). -/
def result_dict (r : ParseResult) : List (String × PyVal) :=
  [("fields", .vfields r.fields),
   ("field_scores", .vscores r.field_scores),
   ("confidence", .vrat r.confidence),
   ("ocr_used", .vbool r.ocr_used),
   ("doc_type", .vstr (doc_type_key r.doc_type))]

/-- Python `d[k]`: the value, or an uncaught `KeyError`. -/
def dict_get (d : List (String × PyVal)) (k : String) : Except PyErr PyVal :=
  match d.lookup k with
  | some v => .ok v
  | none => .error (.keyError k)

/-- The storage call the CLIs would reach: `upsert_employee(fields, …,
min_field_score, scores, …)`.  Reaching a `StoreCall` value models the
record actually being stored. -/
inductive StoreCall where
  | upsert (fields scores minScore : PyVal)

/-- Tail of `ingest_contract.main` after `parse_contract` returned: read the
five result keys in source order, then call `upsert_employee`.  A missing
key raises `KeyError` before anything is stored. -/
def ingest_contract_tail (d : List (String × PyVal)) : Except PyErr StoreCall := do
  let fields ← dict_get d "fields"
  let scores ← dict_get d "field_scores"
  let minScore ← dict_get d "min_field_score"
  let _ocr ← dict_get d "ocr_used"
  let _dt ← dict_get d "doc_type"
  .ok (.upsert fields scores minScore)

/-- One iteration of `ingest_folder`'s loop: only the `parse_contract` call
is inside `try`/`except` (an exception there records an error row and stores
nothing, `.ok none`); the key reads after it are unprotected, so a missing
key raises out of the loop before `upsert_employee` runs. -/
def ingest_folder_step (res : Except PyErr (List (String × PyVal))) :
    Except PyErr (Option StoreCall) :=
  match res with
  | .error _ => .ok none
  | .ok d => do
    let fields ← dict_get d "fields"
    let scores ← dict_get d "field_scores"
    let minScore ← dict_get d "min_field_score"
    .ok (some (.upsert fields scores minScore))

/-! ## Supporting lemmas -/

theorem foldl_min_le_init (xs : List Rat) (a : Rat) : xs.foldl min a ≤ a := by
  induction xs generalizing a with
  | nil => simp
  | cons x xs ih => exact le_trans (ih (min a x)) (min_le_left a x)

theorem foldl_min_le_mem (xs : List Rat) (a : Rat) : ∀ x ∈ xs, xs.foldl min a ≤ x := by
  induction xs generalizing a with
  | nil => simp
  | cons y ys ih =>
    intro x hx
    rcases List.mem_cons.mp hx with h | h
    · subst h
      exact le_trans (foldl_min_le_init ys (min a x)) (min_le_right a x)
    · exact ih (min a y) x h

theorem foldl_min_mem (xs : List Rat) (a : Rat) : xs.foldl min a ∈ a :: xs := by
  induction xs generalizing a with
  | nil => simp
  | cons y ys ih =>
    rw [List.foldl_cons]
    rcases List.mem_cons.mp (ih (min a y)) with h | h
    · rw [h]
      rcases min_choice a y with hm | hm <;> rw [hm]
      · exact List.mem_cons_self _ _
      · exact List.mem_cons.mpr (Or.inr (List.mem_cons_self _ _))
    · exact List.mem_cons.mpr (Or.inr (List.mem_cons.mpr (Or.inr h)))

theorem py_min_le (l : List Rat) (x : Rat) (hx : x ∈ l) : py_min l ≤ x := by
  cases l with
  | nil => cases hx
  | cons a xs =>
    rcases List.mem_cons.mp hx with h | h
    · subst h; exact foldl_min_le_init xs x
    · exact foldl_min_le_mem xs a x h

theorem py_min_mem (l : List Rat) (hl : l ≠ []) : py_min l ∈ l := by
  cases l with
  | nil => exact absurd rfl hl
  | cons a xs => exact foldl_min_mem xs a

/-- The matcher resolves a field either to `(None, 0.0)` or to a value at
score 1.0. -/
theorem match_field_cases (fi : Finditer) (f : Field) :
    match_field fi f = (none, 0) ∨ ∃ v, match_field fi f = (some v, 1) := by
  unfold match_field
  cases match_rules f (rule_captures fi f) with
  | none => exact Or.inl rfl
  | some v => exact Or.inr ⟨v, rfl⟩

/-- The value branch of the re-typing yields `(None, 0.0)` or 0.85. -/
theorem llm_retype_val_cases (f : Field) (val : JVal) :
    llm_retype_val f val = (none, 0) ∨ ∃ v, llm_retype_val f val = (some v, (85 / 100 : Rat)) := by
  unfold llm_retype_val
  split
  · cases h : to_iso (py_str val) with
    | none => exact Or.inl rfl
    | some iso => exact Or.inr ⟨Value.vstr iso, rfl⟩
  · split
    · cases h : jval_float val with
      | none => exact Or.inl rfl
      | some q => exact Or.inr ⟨Value.vnum q, rfl⟩
    · exact Or.inr ⟨Value.vstr (pyStripStr (py_str val)), rfl⟩

/-- An LLM re-typed pair is `(None, 0.0)` or a present value at 0.85. -/
theorem llm_retype_cases (f : Field) (val : JVal) :
    llm_retype f val = (none, 0) ∨ ∃ v, llm_retype f val = (some v, (85 / 100 : Rat)) := by
  cases val with
  | jnull => exact Or.inl rfl
  | jbool b => exact llm_retype_val_cases f (.jbool b)
  | jnum q => exact llm_retype_val_cases f (.jnum q)
  | jstr s => exact llm_retype_val_cases f (.jstr s)
  | jarr xs => exact llm_retype_val_cases f (.jarr xs)
  | jobj kvs => exact llm_retype_val_cases f (.jobj kvs)

/-- On a JSON-object response the per-field loop never raises and produces
exactly one re-typed pair per requested field, in order. -/
theorem llm_results_jobj (kvs : List (String × JVal)) (l : List Field) :
    llm_results (.jobj kvs) l =
      .ok (l.map fun f => (f, llm_retype f ((jlookup kvs (field_key f)).getD .jnull))) := by
  induction l with
  | nil => rfl
  | cons f rest ih => simp [llm_results, py_get, ih]

/-- Every pair the per-field loop emits is keyed by a requested field. -/
theorem llm_results_keys (raw : JVal) (l : List Field)
    (out : List (Field × (Option Value × Rat))) (h : llm_results raw l = .ok out) :
    ∀ p ∈ out, p.1 ∈ l := by
  induction l generalizing out with
  | nil =>
    cases h
    intro p hp
    cases hp
  | cons f rest ih =>
    unfold llm_results at h
    cases hg : py_get raw (field_key f) with
    | error e => rw [hg] at h; cases h
    | ok val =>
      rw [hg] at h
      cases hr : llm_results raw rest with
      | error e => rw [hr] at h; cases h
      | ok out' =>
        rw [hr] at h
        cases h
        intro p hp
        rcases List.mem_cons.mp hp with h | h
        · subst h; exact List.mem_cons_self _ _
        · exact List.mem_cons_of_mem _ (ih out' hr p h)

/-- On a non-object response the first `raw.get` raises. -/
theorem llm_results_nonobj (raw : JVal) (hraw : ∀ kvs, raw ≠ .jobj kvs)
    (f : Field) (rest : List Field) :
    llm_results raw (f :: rest) = .error .attributeError := by
  unfold llm_results py_get
  cases raw <;> simp_all

/-- A non-object response never yields an `ok` from the per-field loop when
at least one field is requested. -/
theorem llm_nonobj_no_ok (raw : JVal) (hraw : ∀ kvs, raw ≠ .jobj kvs)
    (a : Field) (rest : List Field) (out : List (Field × (Option Value × Rat)))
    (h : llm_results raw (a :: rest) = .ok out) : False := by
  rw [llm_results_nonobj raw hraw a rest] at h
  cases h

/-- Every pair `_llm_extract_fields` returns is keyed by a requested field
and carries `(None, 0.0)` or a value at 0.85. -/
theorem llm_extract_fields_mem (env : LlmEnv) (text : String) (missing : List Field)
    (out : List (Field × (Option Value × Rat)))
    (h : llm_extract_fields env text missing = .ok out) :
    ∀ p ∈ out, p.1 ∈ missing ∧
      (p.2 = (none, 0) ∨ ∃ v, p.2 = (some v, (85 / 100 : Rat))) := by
  unfold llm_extract_fields at h
  split at h
  · cases h
    intro p hp
    cases hp
  · rename_i hguard
    obtain ⟨a, rest, hm⟩ : ∃ a rest, missing = a :: rest := by
      cases missing with
      | nil => exact absurd (Or.inr (Or.inr rfl)) hguard
      | cons a rest => exact ⟨a, rest, rfl⟩
    split at h
    · cases h
      intro p hp
      cases hp
    · cases henv : env.apiResult with
      | none =>
        rw [henv] at h
        simp only at h
        cases h
        intro p hp
        cases hp
      | some raw =>
        rw [henv] at h
        simp only at h
        intro p hp
        refine ⟨llm_results_keys raw missing out h p hp, ?_⟩
        cases raw with
        | jobj kvs =>
          rw [llm_results_jobj] at h
          cases h
          rcases List.mem_map.mp hp with ⟨f, _, hf⟩
          rw [← hf]
          exact llm_retype_cases f _
        | jnull =>
          exact absurd (hm ▸ h) (fun hh => llm_nonobj_no_ok _ (fun kvs hk => JVal.noConfusion hk) a rest out hh)
        | jbool b =>
          exact absurd (hm ▸ h) (fun hh => llm_nonobj_no_ok _ (fun kvs hk => JVal.noConfusion hk) a rest out hh)
        | jnum q =>
          exact absurd (hm ▸ h) (fun hh => llm_nonobj_no_ok _ (fun kvs hk => JVal.noConfusion hk) a rest out hh)
        | jstr s =>
          exact absurd (hm ▸ h) (fun hh => llm_nonobj_no_ok _ (fun kvs hk => JVal.noConfusion hk) a rest out hh)
        | jarr xs =>
          exact absurd (hm ▸ h) (fun hh => llm_nonobj_no_ok _ (fun kvs hk => JVal.noConfusion hk) a rest out hh)

/-- Merging leaves untouched every field no pair is keyed by. -/
theorem merge_notin (l : List (Field × (Option Value × Rat)))
    (base : (Field → Option Value) × (Field → Rat)) (f : Field)
    (hf : ∀ p ∈ l, p.1 ≠ f) :
    (merge_results base l).1 f = base.1 f ∧ (merge_results base l).2 f = base.2 f := by
  induction l generalizing base with
  | nil => exact ⟨rfl, rfl⟩
  | cons q rest ih =>
    have hq : q.1 ≠ f := hf q (List.mem_cons_self _ _)
    have step := ih (Function.update base.1 q.1 q.2.1, Function.update base.2 q.1 q.2.2)
      (fun p hp => hf p (List.mem_cons_of_mem _ hp))
    unfold merge_results at step ⊢
    rw [List.foldl_cons]
    refine ⟨?_, ?_⟩
    · rw [step.1]
      exact Function.update_noteq (fun he => hq he.symm) _ _
    · rw [step.2]
      exact Function.update_noteq (fun he => hq he.symm) _ _

/-- With pairwise-distinct keys, the merged dicts hold each pair's payload. -/
theorem merge_mem (l : List (Field × (Option Value × Rat)))
    (base : (Field → Option Value) × (Field → Rat)) (f : Field) (p : Option Value × Rat)
    (hnd : (l.map Prod.fst).Nodup) (hmem : (f, p) ∈ l) :
    (merge_results base l).1 f = p.1 ∧ (merge_results base l).2 f = p.2 := by
  induction l generalizing base with
  | nil => cases hmem
  | cons q rest ih =>
    rw [List.map_cons, List.nodup_cons] at hnd
    rcases List.mem_cons.mp hmem with h | h
    · cases h
      have hout : ∀ pr ∈ rest, pr.1 ≠ f := by
        intro pr hpr hpe
        have hmm : pr.1 ∈ rest.map Prod.fst := List.mem_map_of_mem Prod.fst hpr
        rw [hpe] at hmm
        exact hnd.1 hmm
      have step := merge_notin rest
        (Function.update base.1 f p.1, Function.update base.2 f p.2) f hout
      unfold merge_results at step ⊢
      rw [List.foldl_cons]
      refine ⟨?_, ?_⟩
      · rw [step.1]; exact Function.update_same _ _ _
      · rw [step.2]; exact Function.update_same _ _ _
    · exact ih _ hnd.2 h

/-- Invariant carried through the stages: every score is a tier value, a
0.0 score has a null value, and a 1.0 score carries exactly the value the
pattern matcher produced. -/
def tier_inv (fi : Finditer) (st : (Field → Option Value) × (Field → Rat)) : Prop :=
  ∀ f, (st.2 f = 1 ∨ st.2 f = (85 / 100 : Rat) ∨ st.2 f = 0) ∧
    (st.2 f = 0 → st.1 f = none) ∧
    (st.2 f = 1 → ∃ v, st.1 f = some v ∧ match_field fi f = (some v, 1))

theorem tier_inv_stage1 (fi : Finditer) :
    tier_inv fi (fun f => (match_field fi f).1, fun f => (match_field fi f).2) := by
  intro f
  dsimp only
  rcases match_field_cases fi f with h | ⟨v, h⟩
  · refine ⟨Or.inr (Or.inr (by rw [h])), fun _ => by rw [h], fun h1 => ?_⟩
    rw [h] at h1
    exact absurd h1 (by norm_num)
  · refine ⟨Or.inl (by rw [h]), fun h0 => ?_, fun _ => ⟨v, by rw [h], h⟩⟩
    rw [h] at h0
    exact absurd h0 (by norm_num)

/-- Updating one field with `(None, 0.0)` or a value at 0.85 preserves the
tier invariant. -/
theorem tier_inv_update (fi : Finditer) (st : (Field → Option Value) × (Field → Rat))
    (f0 : Field) (p : Option Value × Rat)
    (hp : p = (none, 0) ∨ ∃ v, p = (some v, (85 / 100 : Rat)))
    (h : tier_inv fi st) :
    tier_inv fi (Function.update st.1 f0 p.1, Function.update st.2 f0 p.2) := by
  intro f
  by_cases hf : f = f0
  · subst hf
    simp only [Function.update_same]
    rcases hp with h0 | ⟨v, hv⟩
    · subst h0
      exact ⟨Or.inr (Or.inr rfl), fun _ => rfl, fun h1 => absurd h1 (by norm_num)⟩
    · subst hv
      exact ⟨Or.inr (Or.inl rfl), fun h0 => absurd h0 (by norm_num),
        fun h1 => absurd h1 (by norm_num)⟩
  · simp only [Function.update_noteq hf]
    exact h f

/-- Merging LLM pairs (each `(None, 0.0)` or a value at 0.85) preserves the
tier invariant. -/
theorem tier_inv_merge (fi : Finditer) (l : List (Field × (Option Value × Rat)))
    (base : (Field → Option Value) × (Field → Rat))
    (hl : ∀ p ∈ l, p.2 = (none, 0) ∨ ∃ v, p.2 = (some v, (85 / 100 : Rat)))
    (h : tier_inv fi base) : tier_inv fi (merge_results base l) := by
  induction l generalizing base with
  | nil => exact h
  | cons q rest ih =>
    unfold merge_results
    rw [List.foldl_cons]
    exact ih (Function.update base.1 q.1 q.2.1, Function.update base.2 q.1 q.2.2)
      (fun p hp => hl p (List.mem_cons_of_mem _ hp))
      (tier_inv_update fi base q.1 q.2 (hl q (List.mem_cons_self _ _)) h)


/-- A `jo_set` at another field changes nothing there. -/
theorem jo_set_other (f0 : Field) (v : String)
    (st : (Field → Option Value) × (Field → Rat)) (f : Field) (hf : f ≠ f0) :
    (jo_set f0 v st).1 f = st.1 f ∧ (jo_set f0 v st).2 f = st.2 f := by
  unfold jo_set
  split
  · exact ⟨Function.update_noteq hf _ _, Function.update_noteq hf _ _⟩
  · exact ⟨rfl, rfl⟩

/-- At its own field, a `jo_set` either leaves the pair alone (score not 0.0)
or installs the derived value at 0.85. -/
theorem jo_set_self (f0 : Field) (v : String)
    (st : (Field → Option Value) × (Field → Rat)) :
    ((jo_set f0 v st).1 f0 = st.1 f0 ∧ (jo_set f0 v st).2 f0 = st.2 f0) ∨
      (st.2 f0 = 0 ∧ (jo_set f0 v st).1 f0 = some (.vstr v) ∧
        (jo_set f0 v st).2 f0 = (85 / 100 : Rat)) := by
  unfold jo_set
  split
  · rename_i h0
    exact Or.inr ⟨h0, Function.update_same _ _ _, Function.update_same _ _ _⟩
  · exact Or.inl ⟨rfl, rfl⟩

/-- A `jo_set` whose guard holds installs the derived value at 0.85. -/
theorem jo_set_sets (f0 : Field) (v : String)
    (st : (Field → Option Value) × (Field → Rat)) (h0 : st.2 f0 = 0) :
    (jo_set f0 v st).1 f0 = some (.vstr v) ∧ (jo_set f0 v st).2 f0 = (85 / 100 : Rat) := by
  unfold jo_set
  rw [if_pos h0]
  exact ⟨Function.update_same _ _ _, Function.update_same _ _ _⟩

/-- A `jo_opt` at another field changes nothing there. -/
theorem jo_opt_other (f0 : Field) (v : Option String)
    (st : (Field → Option Value) × (Field → Rat)) (f : Field) (hf : f ≠ f0) :
    (jo_opt f0 v st).1 f = st.1 f ∧ (jo_opt f0 v st).2 f = st.2 f := by
  cases v with
  | none => exact ⟨rfl, rfl⟩
  | some s => exact jo_set_other f0 s st f hf

/-- At its own field, a `jo_opt` either leaves the pair alone or installs a
derived value at 0.85, and it overwrites only from score 0.0. -/
theorem jo_opt_self (f0 : Field) (v : Option String)
    (st : (Field → Option Value) × (Field → Rat)) :
    ((jo_opt f0 v st).1 f0 = st.1 f0 ∧ (jo_opt f0 v st).2 f0 = st.2 f0) ∨
      (st.2 f0 = 0 ∧ (jo_opt f0 v st).2 f0 = (85 / 100 : Rat) ∧
        ∃ s, (jo_opt f0 v st).1 f0 = some (.vstr s)) := by
  cases v with
  | none => exact Or.inl ⟨rfl, rfl⟩
  | some s =>
    rcases jo_set_self f0 s st with hk | ⟨h0, h1, h2⟩
    · exact Or.inl hk
    · exact Or.inr ⟨h0, h2, ⟨s, h1⟩⟩

/-- Case analysis of the job-offer block: each field is either completely
untouched, or it is one of the two date fields, was still scored 0.0, and now
carries a derived date string at 0.85. -/
theorem jo_update_cases (text : String) (fs : Field → Option Value) (sc : Field → Rat)
    (st' : (Field → Option Value) × (Field → Rat))
    (h : jo_update text fs sc = .ok st') (f : Field) :
    (st'.1 f = fs f ∧ st'.2 f = sc f) ∨
      ((f = .contract_start_date ∨ f = .contract_expiry_date) ∧ sc f = 0 ∧
        st'.2 f = (85 / 100 : Rat) ∧ ∃ s, st'.1 f = some (.vstr s)) := by
  have hse : (Field.contract_start_date : Field) ≠ .contract_expiry_date := by decide
  unfold jo_update at h
  split at h
  · cases hx : extract_job_offer_dates text with
    | error e => rw [hx] at h; cases h
    | ok pr =>
      rw [hx] at h
      obtain ⟨joS, joE⟩ := pr
      cases h
      by_cases hfs : f = Field.contract_start_date
      · subst hfs
        have hkeep := jo_opt_other .contract_expiry_date joE
          (jo_opt .contract_start_date joS (fs, sc)) Field.contract_start_date hse
        rcases jo_opt_self .contract_start_date joS (fs, sc) with hk | ⟨h0, h2, s, hv⟩
        · exact Or.inl ⟨hkeep.1.trans hk.1, hkeep.2.trans hk.2⟩
        · exact Or.inr ⟨Or.inl rfl, h0, hkeep.2.trans h2, ⟨s, hkeep.1.trans hv⟩⟩
      · by_cases hfe : f = Field.contract_expiry_date
        · subst hfe
          have step1 := jo_opt_other .contract_start_date joS (fs, sc)
            Field.contract_expiry_date (fun he => hse he.symm)
          rcases jo_opt_self .contract_expiry_date joE
            (jo_opt .contract_start_date joS (fs, sc)) with hk | ⟨h0, h2, s, hv⟩
          · exact Or.inl ⟨hk.1.trans step1.1, hk.2.trans step1.2⟩
          · exact Or.inr ⟨Or.inr rfl, step1.2.symm.trans h0, h2, ⟨s, hv⟩⟩
        · have step1 := jo_opt_other .contract_start_date joS (fs, sc) f hfs
          have hkeep := jo_opt_other .contract_expiry_date joE
            (jo_opt .contract_start_date joS (fs, sc)) f hfe
          exact Or.inl ⟨hkeep.1.trans step1.1, hkeep.2.trans step1.2⟩
  · cases h
    exact Or.inl ⟨rfl, rfl⟩

/-- When the block applies and both guards hold, both derived dates land. -/
theorem jo_update_sets (text : String) (fs : Field → Option Value) (sc : Field → Rat)
    (st' : (Field → Option Value) × (Field → Rat)) (s e : String)
    (h : jo_update text fs sc = .ok st')
    (hjo : detect_doc_type text = .job_offer)
    (hx : extract_job_offer_dates text = .ok (some s, some e))
    (hs0 : sc .contract_start_date = 0) (he0 : sc .contract_expiry_date = 0) :
    st'.1 .contract_start_date = some (.vstr s) ∧ st'.2 .contract_start_date = (85 / 100 : Rat) ∧
      st'.1 .contract_expiry_date = some (.vstr e) ∧ st'.2 .contract_expiry_date = (85 / 100 : Rat) := by
  have hse : (Field.contract_start_date : Field) ≠ .contract_expiry_date := by decide
  unfold jo_update at h
  rw [if_pos hjo, hx] at h
  cases h
  have hstart := jo_set_sets .contract_start_date s (fs, sc) hs0
  have hexp0 : (jo_set .contract_start_date s (fs, sc)).2 .contract_expiry_date = 0 :=
    (jo_set_other .contract_start_date s (fs, sc) _ (fun he => hse he.symm)).2.trans he0
  have hexp := jo_set_sets .contract_expiry_date e _ hexp0
  have hkeep := jo_set_other .contract_expiry_date e
    (jo_set .contract_start_date s (fs, sc)) Field.contract_start_date hse
  exact ⟨hkeep.1.trans hstart.1, hkeep.2.trans hstart.2, hexp.1, hexp.2⟩

/-- Destructor of a successful `parse_contract` run. -/
theorem parse_contract_ok (doc : Doc) (r : ParseResult)
    (h : parse_contract doc = .ok r) :
    ∃ fs2 sc2 llmRes, stage12 doc = .ok (fs2, sc2) ∧
      (if missing_fields sc2 = [] then Except.ok []
       else llm_extract_fields doc.llm doc.text (missing_fields sc2)) = .ok llmRes ∧
      r = finalize doc fs2 sc2 llmRes := by
  unfold parse_contract at h
  cases hs : stage12 doc with
  | error e => rw [hs] at h; cases h
  | ok st =>
    rw [hs] at h
    obtain ⟨fs2, sc2⟩ := st
    simp only at h
    cases hl : (if missing_fields sc2 = [] then Except.ok []
        else llm_extract_fields doc.llm doc.text (missing_fields sc2)) with
    | error e => rw [hl] at h; cases h
    | ok llmRes =>
      rw [hl] at h
      cases h
      exact ⟨fs2, sc2, llmRes, rfl, hl, rfl⟩

/-- Projection equations of `finalize`. -/
theorem finalize_fields (doc : Doc) (fs : Field → Option Value) (sc : Field → Rat)
    (l : List (Field × (Option Value × Rat))) :
    (finalize doc fs sc l).fields =
      Function.update (merge_results (fs, sc) l).1 .insurance_status none := rfl

theorem finalize_scores (doc : Doc) (fs : Field → Option Value) (sc : Field → Rat)
    (l : List (Field × (Option Value × Rat))) :
    (finalize doc fs sc l).field_scores =
      Function.update (merge_results (fs, sc) l).2 .insurance_status 1 := rfl

theorem finalize_confidence (doc : Doc) (fs : Field → Option Value) (sc : Field → Rat)
    (l : List (Field × (Option Value × Rat))) :
    (finalize doc fs sc l).confidence =
      py_min ((ALL_RESULT_FIELDS.filter (· ≠ Field.insurance_status)).map
        (finalize doc fs sc l).field_scores) := rfl

/-- A pattern field the LLM stage was not asked about keeps its post-jo pair
in the final record. -/
theorem final_untouched (doc : Doc) (fs2 : Field → Option Value) (sc2 : Field → Rat)
    (llmRes : List (Field × (Option Value × Rat))) (f : Field)
    (hl : (if missing_fields sc2 = [] then Except.ok []
       else llm_extract_fields doc.llm doc.text (missing_fields sc2)) = .ok llmRes)
    (hnot0 : sc2 f ≠ 0) (hins : f ≠ .insurance_status) :
    (finalize doc fs2 sc2 llmRes).fields f = fs2 f ∧
      (finalize doc fs2 sc2 llmRes).field_scores f = sc2 f := by
  have hfm : f ∉ missing_fields sc2 := by
    intro hmem
    exact hnot0 (of_decide_eq_true (List.mem_filter.mp hmem).2)
  have hkeys : ∀ p ∈ llmRes, p.1 ≠ f := by
    intro p hp he
    by_cases hnone : missing_fields sc2 = []
    · rw [if_pos hnone] at hl
      cases hl
      cases hp
    · rw [if_neg hnone] at hl
      exact hfm (he ▸ (llm_extract_fields_mem _ _ _ _ hl p hp).1)
  have hm := merge_notin llmRes (fs2, sc2) f hkeys
  rw [finalize_fields, finalize_scores, Function.update_noteq hins, Function.update_noteq hins]
  exact ⟨hm.1, hm.2⟩

/-- A trivial document: empty text, no pattern matches, external call
disabled.  Used to instantiate witnesses. -/
def doc0 : Doc :=
  { text := ""
    fi := fun _ _ => []
    llm := { available := false, apiKey := "", apiResult := none }
    ocrUsed := false }

theorem parse_doc0_ok : ∃ r, parse_contract doc0 = .ok r := ⟨_, rfl⟩

/-- A job-offer document whose `contract_start_date` is matched directly by
the first start-date rule: the finditer oracle returns one capture for that
pattern and nothing else. -/
def doc1 : Doc :=
  { text := "JOB OFFER starting from 13/05/2022 Corresponding to = 01/01/2023 for a period of 2 years"
    fi := fun p _ => if p = "starting from\\s+(\\d{2}/\\d{2}/\\d{4})" then ["13/05/2022"] else []
    llm := { available := false, apiKey := "", apiResult := none }
    ocrUsed := false }

/-! ## Claims -/

/-- C1: for every document `parse_contract` returns normally, the confidence
equals the minimum of the field scores taken over all fields except
`insurance_status`: it is a lower bound of every non-insurance score, it is
attained at some non-insurance field, and it is computed as the minimum over
exactly the non-insurance keys — `insurance_status`'s score is never part of
that minimum. -/
theorem C1_confidence_excludes_insurance (doc : Doc) (r : ParseResult)
    (h : parse_contract doc = .ok r) :
    (∀ f ∈ ALL_RESULT_FIELDS, f ≠ Field.insurance_status →
      r.confidence ≤ r.field_scores f) ∧
    (∃ f, f ∈ ALL_RESULT_FIELDS ∧ f ≠ Field.insurance_status ∧
      r.confidence = r.field_scores f) ∧
    r.confidence = py_min ((ALL_RESULT_FIELDS.filter (· ≠ Field.insurance_status)).map
      r.field_scores) := by
  obtain ⟨fs2, sc2, llmRes, hs, hl, hr⟩ := parse_contract_ok doc r h
  subst hr
  refine ⟨?_, ?_, finalize_confidence doc fs2 sc2 llmRes⟩
  · intro f hf hne
    rw [finalize_confidence]
    exact py_min_le _ _ (List.mem_map_of_mem _ (List.mem_filter.mpr ⟨hf, decide_eq_true hne⟩))
  · have hmem0 : Field.full_name ∈ ALL_RESULT_FIELDS.filter (· ≠ Field.insurance_status) := by
      decide
    have hnil : (ALL_RESULT_FIELDS.filter (· ≠ Field.insurance_status)).map
        (finalize doc fs2 sc2 llmRes).field_scores ≠ [] :=
      List.ne_nil_of_mem (List.mem_map_of_mem _ hmem0)
    have hmin := py_min_mem _ hnil
    rcases List.mem_map.mp hmin with ⟨f, hff, heq⟩
    exact ⟨f, (List.mem_filter.mp hff).1,
      of_decide_eq_true (List.mem_filter.mp hff).2,
      (finalize_confidence doc fs2 sc2 llmRes).trans heq.symm⟩

/-- C1 witness: the theorem applied to the trivial document. -/
theorem C1_confidence_excludes_insurance_witness :
    ∃ r, parse_contract doc0 = .ok r ∧
      r.confidence = py_min ((ALL_RESULT_FIELDS.filter (· ≠ Field.insurance_status)).map
        r.field_scores) := by
  obtain ⟨r, hr⟩ := parse_doc0_ok
  exact ⟨r, hr, (C1_confidence_excludes_insurance doc0 r hr).2.2⟩

/-- C3: `insurance_status` is always `(None, 1.0)` in the result, is never
one of the fields the matching loop visits, and is never in the `missing`
list handed to the external fallback nor in the prompt field list the
fallback builds from it. -/
theorem C3_insurance_fixed_never_requested (doc : Doc) (r : ParseResult)
    (h : parse_contract doc = .ok r) :
    r.fields .insurance_status = none ∧ r.field_scores .insurance_status = 1 ∧
      Field.insurance_status ∉ PATTERN_FIELDS ∧
      (∀ sc : Field → Rat, Field.insurance_status ∉ missing_fields sc) ∧
      (∀ sc : Field → Rat, Field.insurance_status ∉
        (missing_fields sc).filter fun f => decide (f ∈ LLM_FIELD_KEYS)) := by
  obtain ⟨fs2, sc2, llmRes, hs, hl, hr⟩ := parse_contract_ok doc r h
  subst hr
  refine ⟨?_, ?_, by decide, ?_, ?_⟩
  · rw [finalize_fields]
    exact Function.update_same _ _ _
  · rw [finalize_scores]
    exact Function.update_same _ _ _
  · intro sc hmem
    exact absurd (List.mem_filter.mp hmem).1 (by decide)
  · intro sc hmem
    exact absurd (List.mem_filter.mp (List.mem_filter.mp hmem).1).1 (by decide)

/-- C3 witness: the theorem applied to the trivial document. -/
theorem C3_insurance_fixed_never_requested_witness :
    ∃ r, parse_contract doc0 = .ok r ∧
      r.fields .insurance_status = none ∧ r.field_scores .insurance_status = 1 := by
  obtain ⟨r, hr⟩ := parse_doc0_ok
  obtain ⟨h1, h2, -, -, -⟩ := C3_insurance_fixed_never_requested doc0 r hr
  exact ⟨r, hr, h1, h2⟩

/-- C10: the result dict of `parse_contract` has no key `min_field_score`,
so both CLI entry points raise `KeyError` on reading it, before any
`upsert_employee` call is reached (the `Except` short-circuits before the
`StoreCall`). -/
theorem C10_cli_key_error_before_store (doc : Doc) (r : ParseResult)
    (_h : parse_contract doc = .ok r) :
    (result_dict r).lookup "min_field_score" = none ∧
      ingest_contract_tail (result_dict r) = .error (.keyError "min_field_score") ∧
      ingest_folder_step (.ok (result_dict r)) = .error (.keyError "min_field_score") := by
  exact ⟨rfl, rfl, rfl⟩

/-- C10 witness: the theorem applied to the trivial document. -/
theorem C10_cli_key_error_before_store_witness :
    ∃ r, parse_contract doc0 = .ok r ∧
      ingest_contract_tail (result_dict r) = .error (.keyError "min_field_score") := by
  obtain ⟨r, hr⟩ := parse_doc0_ok
  exact ⟨r, hr, (C10_cli_key_error_before_store doc0 r hr).2.1⟩

/-- C6: the derived-date step overwrites one of the two contract-date fields
only while its score is still 0.0 (first conjunct: every other field, and
every field with a nonzero score, keeps its value and score through the
job-offer block); and end to end, a field resolved by a pattern rule at 1.0
reaches the result with that value and score untouched, job offer or not
(second conjunct). -/
theorem C6_derived_dates_never_override (doc : Doc) :
    (∀ (text : String) (fs : Field → Option Value) (sc : Field → Rat)
        (st' : (Field → Option Value) × (Field → Rat)) (f : Field),
      jo_update text fs sc = .ok st' →
      ((f ≠ Field.contract_start_date ∧ f ≠ Field.contract_expiry_date) ∨ sc f ≠ 0) →
      st'.1 f = fs f ∧ st'.2 f = sc f) ∧
    (∀ (r : ParseResult) (f : Field),
      parse_contract doc = .ok r →
      (f = Field.contract_start_date ∨ f = Field.contract_expiry_date) →
      (match_field doc.fi f).2 = 1 →
      r.fields f = (match_field doc.fi f).1 ∧ r.field_scores f = 1) := by
  constructor
  · intro text fs sc st' f h hf
    rcases jo_update_cases text fs sc st' h f with hk | ⟨hor, h0, -, -⟩
    · exact hk
    · rcases hf with ⟨hne1, hne2⟩ | hne0
      · rcases hor with he | he
        · exact absurd he hne1
        · exact absurd he hne2
      · exact absurd h0 hne0
  · intro r f h hor h1
    obtain ⟨fs2, sc2, llmRes, hs, hl, hr⟩ := parse_contract_ok doc r h
    subst hr
    unfold stage12 at hs
    have hcases := jo_update_cases doc.text _ _ (fs2, sc2) hs f
    have hins : f ≠ Field.insurance_status := by
      rcases hor with he | he <;> subst he <;> decide
    rcases hcases with hk | ⟨-, h0, -, -⟩
    · have hfs2 : fs2 f = (match_field doc.fi f).1 := hk.1
      have hsc2 : sc2 f = (match_field doc.fi f).2 := hk.2
      have hnot0 : sc2 f ≠ 0 := by
        rw [hsc2, h1]
        norm_num
      have hu := final_untouched doc fs2 sc2 llmRes f hl hnot0 hins
      refine ⟨hu.1.trans hfs2, hu.2.trans ?_⟩
      rw [hsc2, h1]
    · rw [h1] at h0
      exact absurd h0 (by norm_num)

/-- C6 witness: a job-offer document whose start date was already resolved by
a direct rule at 1.0 keeps it; the derived date does not overwrite it. -/
theorem C6_derived_dates_never_override_witness :
    ∃ r, parse_contract doc1 = .ok r ∧
      r.fields .contract_start_date = some (.vstr "2022-05-13") ∧
      r.field_scores .contract_start_date = 1 ∧
      detect_doc_type doc1.text = .job_offer := by
  obtain ⟨r, hr⟩ : ∃ r, parse_contract doc1 = .ok r := ⟨_, rfl⟩
  have h := (C6_derived_dates_never_override doc1).2 r Field.contract_start_date hr
    (Or.inl rfl) (by decide)
  have hv : (match_field doc1.fi Field.contract_start_date).1 =
      some (.vstr "2022-05-13") := by decide
  exact ⟨r, hr, hv ▸ h.1, h.2, by decide⟩

/-- C2 (amended): every field score in the result is one of {1.0, 0.85, 0.0};
any field scored 0.0 has a null value; and for every field other than
`insurance_status`, a score of 1.0 is assigned only when the value is
exactly the one a deterministic pattern rule produced.  (`insurance_status`
itself is pinned to `(None, 1.0)` by policy, not by a rule — see the
counterexample.) -/
theorem C2_score_tiers (doc : Doc) (r : ParseResult)
    (h : parse_contract doc = .ok r) (f : Field) :
    (r.field_scores f = 1 ∨ r.field_scores f = (85 / 100 : Rat) ∨ r.field_scores f = 0) ∧
    (r.field_scores f = 0 → r.fields f = none) ∧
    (f ≠ Field.insurance_status → r.field_scores f = 1 →
      ∃ v, r.fields f = some v ∧ match_field doc.fi f = (some v, 1)) := by
  obtain ⟨fs2, sc2, llmRes, hs, hl, hr⟩ := parse_contract_ok doc r h
  subst hr
  have inv2 : tier_inv doc.fi (fs2, sc2) := by
    unfold stage12 at hs
    intro g
    rcases jo_update_cases doc.text _ _ (fs2, sc2) hs g with hk | ⟨-, -, h85, s, hv⟩
    · have hfs : fs2 g = (match_field doc.fi g).1 := hk.1
      have hsc : sc2 g = (match_field doc.fi g).2 := hk.2
      refine ⟨?_, ?_, ?_⟩
      · show sc2 g = 1 ∨ sc2 g = (85 / 100 : Rat) ∨ sc2 g = 0
        rcases match_field_cases doc.fi g with hmf | ⟨v, hmf⟩
        · exact Or.inr (Or.inr (by rw [hsc, hmf]))
        · exact Or.inl (by rw [hsc, hmf])
      · show sc2 g = 0 → fs2 g = none
        intro h0
        rcases match_field_cases doc.fi g with hmf | ⟨v, hmf⟩
        · rw [hfs, hmf]
        · rw [hsc, hmf] at h0
          exact absurd h0 (by norm_num)
      · show sc2 g = 1 → ∃ v, fs2 g = some v ∧ match_field doc.fi g = (some v, 1)
        intro h1
        rcases match_field_cases doc.fi g with hmf | ⟨v, hmf⟩
        · rw [hsc, hmf] at h1
          exact absurd h1 (by norm_num)
        · exact ⟨v, by rw [hfs, hmf], hmf⟩
    · have h85s : sc2 g = (85 / 100 : Rat) := h85
      refine ⟨Or.inr (Or.inl h85s), ?_, ?_⟩
      · intro h0
        exact absurd (h85s.symm.trans h0) (by norm_num)
      · intro h1
        exact absurd (h85s.symm.trans h1) (by norm_num)
  have hpairs : ∀ p ∈ llmRes, p.2 = (none, 0) ∨ ∃ v, p.2 = (some v, (85 / 100 : Rat)) := by
    by_cases hnone : missing_fields sc2 = []
    · rw [if_pos hnone] at hl
      cases hl
      intro p hp
      cases hp
    · rw [if_neg hnone] at hl
      intro p hp
      exact (llm_extract_fields_mem _ _ _ _ hl p hp).2
  have invM := tier_inv_merge doc.fi llmRes (fs2, sc2) hpairs inv2
  by_cases hins : f = Field.insurance_status
  · subst hins
    refine ⟨Or.inl ?_, ?_, ?_⟩
    · rw [finalize_scores]
      exact Function.update_same _ _ _
    · intro h0
      rw [finalize_scores, Function.update_same] at h0
      exact absurd h0 (by norm_num)
    · intro hne _
      exact absurd rfl hne
  · have hM := invM f
    refine ⟨?_, ?_, ?_⟩
    · rw [finalize_scores, Function.update_noteq hins]
      exact hM.1
    · intro h0
      rw [finalize_scores, Function.update_noteq hins] at h0
      rw [finalize_fields, Function.update_noteq hins]
      exact hM.2.1 h0
    · intro _ h1
      rw [finalize_scores, Function.update_noteq hins] at h1
      obtain ⟨v, hv, hmf⟩ := hM.2.2 h1
      refine ⟨v, ?_, hmf⟩
      rw [finalize_fields, Function.update_noteq hins]
      exact hv

/-- C2 witness: on `doc1` the start date is rule-matched, and the amended
theorem recovers it as the witnessing value for a 1.0 score. -/
theorem C2_score_tiers_witness :
    ∃ r, parse_contract doc1 = .ok r ∧
      ∃ v, r.fields .contract_start_date = some v ∧
        match_field doc1.fi .contract_start_date = (some v, 1) := by
  refine ⟨_, rfl, ?_⟩
  exact (C2_score_tiers doc1 _ rfl Field.contract_start_date).2.2 (by decide) (by decide)

/-- C2 counterexample: on the trivial document, `insurance_status` is scored
1.0 with a null value, which no deterministic pattern rule produced — so "a
score of 1.0 is assigned only when the value was produced by a deterministic
pattern rule" is false as stated for every field. -/
theorem C2_counterexample :
    ∃ r, parse_contract doc0 = .ok r ∧ r.field_scores .insurance_status = 1 ∧
      r.fields .insurance_status = none ∧
      ∀ v : Value, ¬(r.fields .insurance_status = some v ∧
        match_field doc0.fi .insurance_status = (some v, 1)) := by
  refine ⟨_, rfl, rfl, rfl, ?_⟩
  intro v hv
  exact Option.noConfusion hv.1

/-- Equation: a capture that types successfully stops the occurrence walk. -/
theorem first_typed_cons_some (f : Field) (x : String) (xs : List String) (v : Value)
    (h : type_capture f x = some v) : first_typed f (x :: xs) = some v := by
  simp only [first_typed]
  rw [h]

/-- Equation: a capture that fails to type is skipped. -/
theorem first_typed_cons_none (f : Field) (x : String) (xs : List String)
    (h : type_capture f x = none) : first_typed f (x :: xs) = first_typed f xs := by
  simp only [first_typed]
  rw [h]

/-- Equation: a rule that yields a typed value stops the rule walk. -/
theorem match_rules_cons_some (f : Field) (occs : List String)
    (rest : List (List String)) (v : Value) (h : first_typed f occs = some v) :
    match_rules f (occs :: rest) = some v := by
  simp only [match_rules]
  rw [h]

/-- Equation: a rule with no typed occurrence falls through to the next. -/
theorem match_rules_cons_none (f : Field) (occs : List String)
    (rest : List (List String)) (h : first_typed f occs = none) :
    match_rules f (occs :: rest) = match_rules f rest := by
  simp only [match_rules]
  rw [h]

/-- Concatenating occurrence lists: the first typed capture of the
concatenation is the first list's result, falling through on failure. -/
theorem first_typed_append (f : Field) (a b : List String) :
    first_typed f (a ++ b) =
      match first_typed f a with
      | some v => some v
      | none => first_typed f b := by
  induction a with
  | nil => rfl
  | cons x xs ih =>
    rw [List.cons_append]
    cases hx : type_capture f x with
    | some v =>
      rw [first_typed_cons_some f x (xs ++ b) v hx, first_typed_cons_some f x xs v hx]
    | none =>
      rw [first_typed_cons_none f x (xs ++ b) hx, first_typed_cons_none f x xs hx, ih]

/-- C4: field matching walks each rule's occurrences in rule order (the
overall order is the concatenation of the rules' capture lists — second
conjunct); a capture that fails to type-parse behaves exactly like a
no-match, deleting it from the occurrence sequence changes nothing (first
conjunct); a successful result is always the first successfully-typed
capture (third conjunct); the first typed capture wins at score 1.0 and
total failure yields `(None, 0.0)` (fourth and fifth conjuncts). -/
theorem C4_match_order_skip_failures :
    (∀ (f : Field) (L R : List String) (raw : String), type_capture f raw = none →
      first_typed f (L ++ raw :: R) = first_typed f (L ++ R)) ∧
    (∀ (f : Field) (rules : List (List String)),
      match_rules f rules = first_typed f rules.flatten) ∧
    (∀ (f : Field) (l : List String) (v : Value), first_typed f l = some v →
      ∃ pre c post, l = pre ++ c :: post ∧ type_capture f c = some v ∧
        ∀ x ∈ pre, type_capture f x = none) ∧
    (∀ (fi : Finditer) (f : Field) (v : Value),
      first_typed f (rule_captures fi f).flatten = some v →
        match_field fi f = (some v, 1)) ∧
    (∀ (fi : Finditer) (f : Field),
      first_typed f (rule_captures fi f).flatten = none →
        match_field fi f = (none, 0)) := by
  have hflat : ∀ (f : Field) (rules : List (List String)),
      match_rules f rules = first_typed f rules.flatten := by
    intro f rules
    induction rules with
    | nil => rfl
    | cons occs rest ih =>
      rw [List.flatten_cons, first_typed_append]
      cases ho : first_typed f occs with
      | some v => rw [match_rules_cons_some f occs rest v ho]
      | none =>
        rw [match_rules_cons_none f occs rest ho]
        exact ih
  refine ⟨?_, hflat, ?_, ?_, ?_⟩
  · intro f L R raw hraw
    induction L with
    | nil =>
      rw [List.nil_append, List.nil_append, first_typed_cons_none f raw R hraw]
    | cons x xs ih =>
      rw [List.cons_append, List.cons_append]
      cases hx : type_capture f x with
      | some v =>
        rw [first_typed_cons_some f x (xs ++ raw :: R) v hx,
          first_typed_cons_some f x (xs ++ R) v hx]
      | none =>
        rw [first_typed_cons_none f x (xs ++ raw :: R) hx,
          first_typed_cons_none f x (xs ++ R) hx]
        exact ih
  · intro f l v h
    induction l with
    | nil => cases h
    | cons x xs ih =>
      cases hx : type_capture f x with
      | some w =>
        rw [first_typed_cons_some f x xs w hx] at h
        cases h
        exact ⟨[], x, xs, rfl, hx, by intro y hy; cases hy⟩
      | none =>
        rw [first_typed_cons_none f x xs hx] at h
        obtain ⟨pre, c, post, hl, hc, hpre⟩ := ih h
        refine ⟨x :: pre, c, post, ?_, hc, ?_⟩
        · rw [hl, List.cons_append]
        · intro y hy
          rcases List.mem_cons.mp hy with hy | hy
          · exact hy ▸ hx
          · exact hpre y hy
  · intro fi f v h
    unfold match_field
    rw [hflat, h]
  · intro fi f h
    unfold match_field
    rw [hflat, h]

/-- C4 witness: a garbled OCR date before the true one is skipped exactly
like a no-match; the matcher resolves the field from the second occurrence
at 1.0; with no captures at all the field resolves to `(None, 0.0)`. -/
theorem C4_match_order_skip_failures_witness :
    first_typed .date_of_birth ["99/11/1999", "29/11/1999"] =
      first_typed .date_of_birth ["29/11/1999"] ∧
    match_field
      (fun p _ => if p = "Date\\s+of\\s+Birth\\s+(\\d{2}/\\d{2}/\\d{4})"
        then ["99/11/1999", "29/11/1999"] else [])
      .date_of_birth = (some (.vstr "1999-11-29"), 1) ∧
    match_field (fun _ _ => []) .date_of_birth = (none, 0) := by
  refine ⟨?_, ?_, ?_⟩
  · exact C4_match_order_skip_failures.1 .date_of_birth [] ["29/11/1999"]
      "99/11/1999" (by decide)
  · exact C4_match_order_skip_failures.2.2.2.1 _ .date_of_birth _ (by decide)
  · exact C4_match_order_skip_failures.2.2.2.2 _ .date_of_birth (by decide)

/-- The job-offer scenario document of the spec: signing date and duration
present, no direct start/expiry matches, external call disabled. -/
def joDoc : Doc :=
  { text := "JOB OFFER Corresponding to = 01/01/2023 for a period of 2 years"
    fi := fun _ _ => []
    llm := { available := false, apiKey := "", apiResult := none }
    ocrUsed := false }

/-- C5: when a document classifies as `job_offer`, the derivation produces a
signing date `s` and an expiry `e`, and both contract-date fields are still
scored 0.0 by the matcher, the result carries `(s, 0.85)` and `(e, 0.85)`
(first conjunct); on the spec's example text the derivation yields
`2023-01-01` and `2025-01-01` (second conjunct), and a Feb-29 signing date
plus one year normalizes to Feb-28 of the non-leap target year (third
conjunct). -/
theorem C5_job_offer_derived_dates :
    (∀ (doc : Doc) (r : ParseResult) (s e : String),
      parse_contract doc = .ok r →
      detect_doc_type doc.text = .job_offer →
      extract_job_offer_dates doc.text = .ok (some s, some e) →
      match_field doc.fi .contract_start_date = (none, 0) →
      match_field doc.fi .contract_expiry_date = (none, 0) →
      r.fields .contract_start_date = some (.vstr s) ∧
        r.field_scores .contract_start_date = (85 / 100 : Rat) ∧
        r.fields .contract_expiry_date = some (.vstr e) ∧
        r.field_scores .contract_expiry_date = (85 / 100 : Rat)) ∧
    extract_job_offer_dates "JOB OFFER Corresponding to = 01/01/2023 for a period of 2 years" =
      .ok (some "2023-01-01", some "2025-01-01") ∧
    extract_job_offer_dates "Corresponding to = 29/02/2024 for a period of 1 year" =
      .ok (some "2024-02-29", some "2025-02-28") := by
  refine ⟨?_, by decide, by decide⟩
  intro doc r s e h hjo hx hms hme
  obtain ⟨fs2, sc2, llmRes, hs, hl, hr⟩ := parse_contract_ok doc r h
  subst hr
  unfold stage12 at hs
  have hs0 : (match_field doc.fi Field.contract_start_date).2 = 0 := by rw [hms]
  have he0 : (match_field doc.fi Field.contract_expiry_date).2 = 0 := by rw [hme]
  have hset := jo_update_sets doc.text _ _ (fs2, sc2) s e hs hjo hx hs0 he0
  have hns : sc2 .contract_start_date ≠ 0 := by
    have h85 : sc2 .contract_start_date = (85 / 100 : Rat) := hset.2.1
    rw [h85]
    norm_num
  have hne : sc2 .contract_expiry_date ≠ 0 := by
    have h85 : sc2 .contract_expiry_date = (85 / 100 : Rat) := hset.2.2.2
    rw [h85]
    norm_num
  have hus := final_untouched doc fs2 sc2 llmRes .contract_start_date hl hns (by decide)
  have hue := final_untouched doc fs2 sc2 llmRes .contract_expiry_date hl hne (by decide)
  exact ⟨hus.1.trans hset.1, hus.2.trans hset.2.1,
    hue.1.trans hset.2.2.1, hue.2.trans hset.2.2.2⟩

/-- C5 witness: the spec's scenario text run through the whole pipeline. -/
theorem C5_job_offer_derived_dates_witness :
    ∃ r, parse_contract joDoc = .ok r ∧
      r.fields .contract_start_date = some (.vstr "2023-01-01") ∧
      r.field_scores .contract_start_date = (85 / 100 : Rat) ∧
      r.fields .contract_expiry_date = some (.vstr "2025-01-01") ∧
      r.field_scores .contract_expiry_date = (85 / 100 : Rat) := by
  refine ⟨_, rfl, ?_⟩
  exact C5_job_offer_derived_dates.1 joDoc _ "2023-01-01" "2025-01-01" rfl
    (by decide) (by decide) (by decide) (by decide)

/-- C7 (amended): when the external service is unreachable or errors, when
the response is not valid JSON (all one `apiResult = none` failure class),
when OpenAI is not importable, or when no key is configured, the resolver
returns the empty result set and never raises; and any response that parses
to a JSON object is processed to a result without raising.  (A response that
parses to JSON but is not an object raises — see the counterexample.) -/
theorem C7_llm_soft_failure (env : LlmEnv) (text : String) (missing : List Field) :
    ((env.available = false ∨ env.apiKey = "" ∨ env.apiResult = none) →
      llm_extract_fields env text missing = .ok []) ∧
    (∀ kvs, env.apiResult = some (.jobj kvs) →
      ∃ out, llm_extract_fields env text missing = .ok out) := by
  constructor
  · intro hc
    unfold llm_extract_fields
    split
    · rfl
    · rename_i hguard
      split
      · rfl
      · rcases hc with hc | hc | hc
        · exact absurd (Or.inl hc) hguard
        · exact absurd (Or.inr (Or.inl hc)) hguard
        · rw [hc]
  · intro kvs hres
    unfold llm_extract_fields
    split
    · exact ⟨[], rfl⟩
    · split
      · exact ⟨[], rfl⟩
      · rw [hres]
        exact ⟨_, llm_results_jobj kvs missing⟩

/-- Disabled external environment (no key, no import, no response). -/
def llmDisabled : LlmEnv := { available := false, apiKey := "", apiResult := none }

/-- Live environment answering with an empty JSON object. -/
def llmObjEnv : LlmEnv := { available := true, apiKey := "sk-test", apiResult := some (.jobj []) }

/-- Live environment answering with a JSON array (valid JSON, not an object). -/
def llmArrEnv : LlmEnv := { available := true, apiKey := "sk-test", apiResult := some (.jarr []) }

/-- C7 witness: a disabled environment returns the empty set; a JSON-object
response is processed without raising. -/
theorem C7_llm_soft_failure_witness :
    llm_extract_fields llmDisabled "text" [.job_title] = .ok [] ∧
    ∃ out, llm_extract_fields llmObjEnv "text" [.job_title] = .ok out := by
  constructor
  · exact (C7_llm_soft_failure llmDisabled "text" _).1 (Or.inl rfl)
  · exact (C7_llm_soft_failure llmObjEnv "text" _).2 [] rfl

/-- C7 counterexample: with OpenAI available and a key configured, a
response that is valid JSON but not a JSON object (here a JSON array) makes
the resolver raise `AttributeError` (from `raw.get` on a non-dict) instead
of returning an empty result set. -/
theorem C7_counterexample :
    llm_extract_fields llmArrEnv "text" [.job_title] = .error .attributeError := by
  decide

/-- Off the `None` branch, the re-typing is the per-type value branch. -/
theorem llm_retype_nonnull (f : Field) (val : JVal) (h : val ≠ .jnull) :
    llm_retype f val = llm_retype_val f val := by
  cases val with
  | jnull => exact absurd rfl h
  | jbool b => rfl
  | jnum q => rfl
  | jstr s => rfl
  | jarr xs => rfl
  | jobj kvs => rfl

/-- A live document whose only service answer is a job title. -/
def docL : Doc :=
  { text := ""
    fi := fun _ _ => []
    llm := { available := true, apiKey := "sk-test",
             apiResult := some (.jobj [("job_title", JVal.jstr "Welder")]) }
    ocrUsed := false }

/-- C8: the external fallback is requested exactly for the pattern fields
still scored 0.0 after matching and derived dates (first conjunct); with a
JSON-object response, each requested field lands in the final record as the
re-typing of the value the service returned for its key (second conjunct);
and the re-typing of a non-null value uses the same date parser (`to_iso`)
and the decimal coercion (`float`) as the field matcher, scoring 0.85 on
success and `(None, 0.0)` on failure (third and fourth conjuncts). -/
theorem C8_fallback_gap_fill (doc : Doc) (r : ParseResult)
    (fs2 : Field → Option Value) (sc2 : Field → Rat)
    (h : parse_contract doc = .ok r) (hs : stage12 doc = .ok (fs2, sc2)) :
    (∀ f, f ∈ missing_fields sc2 ↔ f ∈ PATTERN_FIELDS ∧ sc2 f = 0) ∧
    (∀ kvs, doc.llm.available = true → doc.llm.apiKey ≠ "" →
      doc.llm.apiResult = some (.jobj kvs) →
      ∀ f ∈ missing_fields sc2,
        r.fields f = (llm_retype f ((jlookup kvs (field_key f)).getD .jnull)).1 ∧
        r.field_scores f = (llm_retype f ((jlookup kvs (field_key f)).getD .jnull)).2) ∧
    (∀ (f : Field) (val : JVal), f ∈ DATE_FIELDS → val ≠ .jnull →
      llm_retype f val =
        (match to_iso (py_str val) with
         | some iso => (some (.vstr iso), (85 / 100 : Rat))
         | none => (none, 0))) ∧
    (∀ (f : Field) (val : JVal), f ∉ DATE_FIELDS → f ∈ DECIMAL_FIELDS → val ≠ .jnull →
      llm_retype f val =
        (match jval_float val with
         | some q => (some (.vnum q), (85 / 100 : Rat))
         | none => (none, 0))) := by
  obtain ⟨fs2', sc2', llmRes, hs', hl, hr⟩ := parse_contract_ok doc r h
  rw [hs] at hs'
  injection hs' with hinj
  obtain ⟨e1, e2⟩ := Prod.mk.injEq fs2 sc2 fs2' sc2' |>.mp hinj
  subst e1
  subst e2
  subst hr
  refine ⟨?_, ?_, ?_, ?_⟩
  · intro f
    unfold missing_fields
    rw [List.mem_filter]
    constructor
    · rintro ⟨h1, h2⟩
      exact ⟨h1, of_decide_eq_true h2⟩
    · rintro ⟨h1, h2⟩
      exact ⟨h1, decide_eq_true h2⟩
  · intro kvs hav hkey hres f hfmiss
    have hfP : f ∈ PATTERN_FIELDS := (List.mem_filter.mp hfmiss).1
    have hne : missing_fields sc2 ≠ [] := List.ne_nil_of_mem hfmiss
    rw [if_neg hne] at hl
    unfold llm_extract_fields at hl
    rw [if_neg ?hg1] at hl
    case hg1 =>
      rintro (hc | hc | hc)
      · rw [hav] at hc
        cases hc
      · exact hkey hc
      · exact hne hc
    rw [if_neg ?hg2] at hl
    case hg2 =>
      intro hemp
      have hfin : f ∈ (missing_fields sc2).filter fun g => decide (g ∈ LLM_FIELD_KEYS) := by
        refine List.mem_filter.mpr ⟨hfmiss, decide_eq_true ?_⟩
        have hsub : ∀ g ∈ PATTERN_FIELDS, g ∈ LLM_FIELD_KEYS := by decide
        exact hsub f hfP
      rw [hemp] at hfin
      cases hfin
    rw [hres] at hl
    simp only at hl
    rw [llm_results_jobj] at hl
    injection hl with hl
    subst hl
    have hmap_mem :
        (f, llm_retype f ((jlookup kvs (field_key f)).getD .jnull)) ∈
          (missing_fields sc2).map
            (fun g => (g, llm_retype g ((jlookup kvs (field_key g)).getD .jnull))) :=
      List.mem_map_of_mem _ hfmiss
    have hnodup : (((missing_fields sc2).map
        (fun g => (g, llm_retype g ((jlookup kvs (field_key g)).getD .jnull)))).map
          Prod.fst).Nodup := by
      rw [List.map_map]
      have hcomp : (Prod.fst ∘ fun g : Field =>
          (g, llm_retype g ((jlookup kvs (field_key g)).getD .jnull))) = id := rfl
      rw [hcomp, List.map_id]
      exact List.Nodup.filter _ (by decide : PATTERN_FIELDS.Nodup)
    have hm := merge_mem _ (fs2, sc2) f _ hnodup hmap_mem
    have hins : f ≠ Field.insurance_status := by
      intro he
      exact absurd (he ▸ hfP) (by decide)
    rw [finalize_fields, finalize_scores, Function.update_noteq hins,
      Function.update_noteq hins]
    exact ⟨hm.1, hm.2⟩
  · intro f val hdate hnn
    rw [llm_retype_nonnull f val hnn]
    unfold llm_retype_val
    rw [if_pos hdate]
  · intro f val hnd hdec hnn
    rw [llm_retype_nonnull f val hnn]
    unfold llm_retype_val
    rw [if_neg hnd, if_pos hdec]

/-- C8 witness: the stubbed-service scenario of the spec — no deterministic
match for `job_title`, service answers `Welder`, the field resolves to
`("Welder", 0.85)`. -/
theorem C8_fallback_gap_fill_witness :
    ∃ r, parse_contract docL = .ok r ∧
      r.fields .job_title = some (.vstr "Welder") ∧
      r.field_scores .job_title = (85 / 100 : Rat) := by
  refine ⟨_, rfl, ?_⟩
  have h := (C8_fallback_gap_fill docL _ _ _ rfl rfl).2.1
    [("job_title", JVal.jstr "Welder")] rfl (by decide) rfl Field.job_title (by decide)
  exact ⟨h.1.trans (by rfl), h.2.trans (by rfl)⟩

/-- The per-page flag of the PyMuPDF branch is set exactly when the page
reaches the OCR stage and OCR delivers output for it. -/
theorem page_result_snd (env : AcqEnv) (i : Nat) :
    (page_result env i).2 = true ↔ (reaches_ocr env i ∧ ocr_delivers env i) := by
  unfold page_result reaches_ocr ocr_delivers
  by_cases h1 : MIN_TEXT_CHARS ≤ (pyStrip (env.fitzPages.getD i "").data).length
  · rw [if_pos h1]
    constructor
    · intro hh
      exact absurd hh Bool.false_ne_true
    · rintro ⟨⟨hr1, -⟩, -⟩
      exact absurd hr1 (not_lt.mpr h1)
  · rw [if_neg h1]
    by_cases h2 : MIN_TEXT_CHARS ≤ (pyStrip (env.plumberPages.getD i "").data).length
    · rw [if_pos h2]
      constructor
      · intro hh
        exact absurd hh Bool.false_ne_true
      · rintro ⟨⟨-, hr2⟩, -⟩
        exact absurd hr2 (not_lt.mpr h2)
    · rw [if_neg h2]
      by_cases h3 : pyStrip (env.fitzOcr i).data ≠ []
      · rw [if_pos h3]
        constructor
        · intro _
          exact ⟨⟨not_le.mp h1, not_le.mp h2⟩, Or.inl h3⟩
        · intro _
          rfl
      · rw [if_neg h3]
        have hocr : pyStrip (env.fitzOcr i).data = [] := not_not.mp h3
        by_cases h4 : env.legacyAvailable = true
        · rw [if_pos h4]
          cases hImgs : env.legacyImages with
          | some imgs =>
            dsimp only
            by_cases h5 : i < imgs.length
            · rw [if_pos h5]
              constructor
              · intro _
                exact ⟨⟨not_le.mp h1, not_le.mp h2⟩,
                  Or.inr ⟨hocr, h4, imgs, rfl, h5⟩⟩
              · intro _
                rfl
            · rw [if_neg h5]
              constructor
              · intro hh
                exact absurd hh Bool.false_ne_true
              · rintro ⟨-, hno | ⟨-, -, imgs2, hi2, hlt2⟩⟩
                · exact absurd hno h3
                · injection hi2 with hi2
                  exact absurd (hi2 ▸ hlt2) h5
          | none =>
            dsimp only
            constructor
            · intro hh
              exact absurd hh Bool.false_ne_true
            · rintro ⟨-, hno | ⟨-, -, imgs2, hi2, -⟩⟩
              · exact absurd hno h3
              · cases hi2
        · rw [if_neg h4]
          constructor
          · intro hh
            exact absurd hh Bool.false_ne_true
          · rintro ⟨-, hno | ⟨-, hla, -⟩⟩
            · exact absurd hno h3
            · exact absurd hla h4

/-- C9 (amended): in the PDF / PyMuPDF branch, the returned `ocr_used` flag
is true if and only if some page both reaches the OCR stage (both
structured-text extractors below the threshold) and actually receives OCR
output there — from the in-process OCR, or from the legacy path when it is
available, page rendering succeeded and the page is within the rendered
images.  A page that merely reaches the OCR stage, with OCR silent or
unavailable, leaves `ocr_used` false (see the counterexample). -/
theorem C9_ocr_used_iff_ocr_delivered (env : AcqEnv)
    (himg : env.suffix ∉ IMAGE_SUFFIXES) (hfitz : env.pymupdfAvailable = true) :
    (get_text env).2 = true ↔
      ∃ i, i < env.fitzPages.length ∧ reaches_ocr env i ∧ ocr_delivers env i := by
  have hmain : (get_text env).2 =
      ((List.range env.fitzPages.length).map fun i => page_result env i).any Prod.snd := by
    unfold get_text
    rw [if_neg himg, if_pos hfitz]
  rw [hmain, List.any_eq_true]
  constructor
  · rintro ⟨x, hx, hpx⟩
    rcases List.mem_map.mp hx with ⟨i, hi, hxi⟩
    exact ⟨i, List.mem_range.mp hi, (page_result_snd env i).mp (by rw [hxi]; exact hpx)⟩
  · rintro ⟨i, hi, hro⟩
    exact ⟨page_result env i, List.mem_map_of_mem _ (List.mem_range.mpr hi),
      (page_result_snd env i).mpr hro⟩

/-- A one-page scanned PDF where both text extractors return nothing, the
in-process OCR returns nothing, and legacy OCR is unavailable. -/
def envC9 : AcqEnv :=
  { suffix := ".pdf"
    legacyAvailable := false
    imageOcrText := ""
    pymupdfAvailable := true
    fitzPages := [""]
    plumberPages := []
    fitzOcr := fun _ => ""
    legacyImages := none }

/-- The same document with the in-process OCR delivering text. -/
def envC9ok : AcqEnv :=
  { suffix := ".pdf"
    legacyAvailable := false
    imageOcrText := ""
    pymupdfAvailable := true
    fitzPages := [""]
    plumberPages := []
    fitzOcr := fun _ => "scanned page text"
    legacyImages := none }

/-- C9 counterexample: page 0 of `envC9` reaches the OCR stage (both
extractors below the threshold), yet `_get_text` returns `ocr_used = false`
because OCR produced nothing and the legacy path is unavailable — refuting
"reaching the OCR stage sets ocr_used for the whole document". -/
theorem C9_counterexample :
    get_text envC9 = ("", false) ∧ reaches_ocr envC9 0 ∧
      0 < envC9.fitzPages.length := by
  refine ⟨by decide, ?_, by decide⟩
  constructor
  · decide
  · decide

/-- C9 witness: with OCR delivering text on the same page, the amended
equivalence applies and `ocr_used` is true. -/
theorem C9_ocr_used_iff_ocr_delivered_witness :
    ((get_text envC9ok).2 = true ↔
      ∃ i, i < envC9ok.fitzPages.length ∧ reaches_ocr envC9ok i ∧ ocr_delivers envC9ok i) ∧
    (get_text envC9ok).2 = true := by
  have h := C9_ocr_used_iff_ocr_delivered envC9ok (by decide) rfl
  exact ⟨h, h.mpr ⟨0, by decide, ⟨by decide, by decide⟩, Or.inl (by decide)⟩⟩

end Moonwalk
